import Mathlib

/-
Verification development for the book-adventure generation pipeline.

The TypeScript sources are shallowly embedded in Lean:
  * JavaScript objects used as string-keyed records become association
    lists `List (String × β)` in property-insertion order, with the
    JS semantics `obj[k] = v` (update in place or append) and
    `delete obj[k]` mirrored by `aset` / `adel`.
  * JS `Set` values become duplicate-free `List String` built with
    `insertSet`; only membership is ever observed.
  * The filesystem touched by the pipeline cache becomes an association
    list from filename to file content carried in the cache state.
  * `new Date().toISOString()` is an external clock; the save operations
    take the produced timestamp as an explicit `now` argument.
  * Fallible reads return `Option`.
Sections below follow the source files:
  packages/generator/src/lib/cache.ts        (PipelineCache)
  packages/generator/src/lib/ai/graph/connection-resolver.ts
  packages/generator/src/lib/ai/validation.ts
  client.ts `callBatchParallel` (implementation absent from the sources;
  modelled from the spec, see the Exec section).
-/

/-! ## Association-list helpers (JS object / Map semantics) -/

/-- Lookup of a key in a string-keyed record, first binding wins
(JS property access `obj[k]`). -/
def aget {β : Type} : List (String × β) → String → Option β
  | [], _ => none
  | (k, v) :: t, key => if k = key then some v else aget t key

/-- Record update `obj[k] = v`: replace the first binding of `k` in place,
or append a new binding at the end (JS property insertion order). -/
def aset {β : Type} : List (String × β) → String → β → List (String × β)
  | [], key, v => [(key, v)]
  | (k, w) :: t, key, v => if k = key then (key, v) :: t else (k, w) :: aset t key v

/-- Record deletion `delete obj[k]` (keys are unique in every record the
pipeline builds, so removing every binding of `k` is the same thing). -/
def adel {β : Type} (l : List (String × β)) (key : String) : List (String × β) :=
  l.filter (fun p => p.1 ≠ key)

/-- Membership test `k in obj` / `map.has(k)`. -/
def ahas {β : Type} (l : List (String × β)) (key : String) : Bool :=
  (aget l key).isSome

/-- Addition to a JS `Set` (no duplicates; only membership is observed). -/
def insertSet (l : List String) (x : String) : List String :=
  if x ∈ l then l else l ++ [x]

@[simp] theorem aget_nil {β : Type} (k : String) : aget ([] : List (String × β)) k = none := rfl

theorem aget_cons {β : Type} (k key : String) (v : β) (t : List (String × β)) :
    aget ((k, v) :: t) key = if k = key then some v else aget t key := rfl

@[simp] theorem aget_aset_self {β : Type} (l : List (String × β)) (k : String) (v : β) :
    aget (aset l k v) k = some v := by
  induction l with
  | nil => simp [aset, aget]
  | cons p t ih =>
    obtain ⟨k0, w⟩ := p
    by_cases h : k0 = k
    · simp [aset, h, aget]
    · simp [aset, h, aget, ih]

theorem aget_aset_ne {β : Type} (l : List (String × β)) (k k' : String) (v : β)
    (h : k ≠ k') : aget (aset l k v) k' = aget l k' := by
  induction l with
  | nil => simp [aset, aget, h]
  | cons p t ih =>
    obtain ⟨k0, w⟩ := p
    by_cases h0 : k0 = k
    · subst h0
      simp [aset, aget, h, Ne.symm h]
    · by_cases h1 : k0 = k'
      · simp [aset, h0, aget, h1, Ne.symm h]
      · simp [aset, h0, aget, h1, ih]

@[simp] theorem aget_adel_self {β : Type} (l : List (String × β)) (k : String) :
    aget (adel l k) k = none := by
  induction l with
  | nil => simp [adel, aget]
  | cons p t ih =>
    obtain ⟨k0, w⟩ := p
    by_cases h : k0 = k
    · simpa [adel, h, aget] using ih
    · simpa [adel, List.filter, h, aget] using ih

theorem aget_adel_ne {β : Type} (l : List (String × β)) (k k' : String) (h : k ≠ k') :
    aget (adel l k) k' = aget l k' := by
  induction l with
  | nil => simp [adel]
  | cons p t ih =>
    obtain ⟨k0, w⟩ := p
    by_cases h0 : k0 = k
    · subst h0
      have : adel ((k0, w) :: t) k0 = adel t k0 := by simp [adel, List.filter]
      rw [this, ih, aget_cons, if_neg (fun hh => h hh)]
    · have : adel ((k0, w) :: t) k = (k0, w) :: adel t k := by simp [adel, List.filter, h0]
      rw [this, aget_cons, aget_cons]
      by_cases h1 : k0 = k'
      · simp [h1]
      · simp [h1, ih]

theorem ahas_aset {β : Type} (l : List (String × β)) (k k' : String) (v : β)
    (h : ahas l k' = true) : ahas (aset l k v) k' = true := by
  by_cases hk : k = k'
  · subst hk
    simp [ahas]
  · simpa [ahas, aget_aset_ne l k k' v hk] using h

theorem mem_insertSet (l : List String) (x y : String) :
    y ∈ insertSet l x ↔ y ∈ l ∨ y = x := by
  unfold insertSet
  by_cases h : x ∈ l
  · simp only [if_pos h]
    constructor
    · exact Or.inl
    · rintro (hy | rfl)
      · exact hy
      · exact h
  · simp [if_neg h]

theorem mem_of_aget {β : Type} {l : List (String × β)} {k : String} {v : β}
    (h : aget l k = some v) : (k, v) ∈ l := by
  induction l with
  | nil => simp [aget] at h
  | cons p t ih =>
    obtain ⟨k0, w⟩ := p
    by_cases h0 : k0 = k
    · subst h0
      simp [aget] at h
      simp [h]
    · simp [aget, h0] at h
      exact List.mem_cons_of_mem _ (ih h)

/-! ## SHA-256 (the `crypto.createHash('sha256')` collaborator)

Executable translation of the standard algorithm over `Nat` with explicit
reduction mod 2^32; only used as an opaque fingerprint by the cache-key
theorems (never evaluated inside a proof). -/

namespace SHA256

def mask32 : Nat := 4294967296

def rotr (n x : Nat) : Nat :=
  ((x >>> n) ||| (x <<< (32 - n))) % mask32

def add32 (a b : Nat) : Nat := (a + b) % mask32

def bXor (a b : Nat) : Nat := a ^^^ b

def bAnd (a b : Nat) : Nat := a &&& b

def bNot32 (a : Nat) : Nat := (mask32 - 1) - a % mask32

def smallSigma0 (x : Nat) : Nat := bXor (bXor (rotr 7 x) (rotr 18 x)) (x >>> 3)

def smallSigma1 (x : Nat) : Nat := bXor (bXor (rotr 17 x) (rotr 19 x)) (x >>> 10)

def bigSigma0 (x : Nat) : Nat := bXor (bXor (rotr 2 x) (rotr 13 x)) (rotr 22 x)

def bigSigma1 (x : Nat) : Nat := bXor (bXor (rotr 6 x) (rotr 11 x)) (rotr 25 x)

def chFn (x y z : Nat) : Nat := bXor (bAnd x y) (bAnd (bNot32 x) z)

def majFn (x y z : Nat) : Nat := bXor (bXor (bAnd x y) (bAnd x z)) (bAnd y z)

def K : List Nat :=
  [1116352408, 1899447441, 3049323471, 3921009573, 961987163, 1508970993,
   2453635748, 2870763221, 3624381080, 310598401, 607225278, 1426881987,
   1925078388, 2162078206, 2614888103, 3248222580, 3835390401, 4022224774,
   264347078, 604807628, 770255983, 1249150122, 1555081692, 1996064986,
   2554220882, 2821834349, 2952996808, 3210313671, 3336571891, 3584528711,
   113926993, 338241895, 666307205, 773529912, 1294757372, 1396182291,
   1695183700, 1986661051, 2177026350, 2456956037, 2730485921, 2820302411,
   3259730800, 3345764771, 3516065817, 3600352804, 4094571909, 275423344,
   430227734, 506948616, 659060556, 883997877, 958139571, 1322822218,
   1537002063, 1747873779, 1955562222, 2024104815, 2227730452, 2361852424,
   2428436474, 2756734187, 3204031479, 3329325298]

def initH : List Nat :=
  [1779033703, 3144134277, 1013904242, 2773480762,
   1359893119, 2600822924, 528734635, 1541459225]

/-- UTF-8 encoding of one code point. -/
def utf8Bytes (c : Char) : List Nat :=
  let n := c.toNat
  if n < 0x80 then [n]
  else if n < 0x800 then
    [0xC0 ||| (n >>> 6), 0x80 ||| (n &&& 0x3F)]
  else if n < 0x10000 then
    [0xE0 ||| (n >>> 12), 0x80 ||| ((n >>> 6) &&& 0x3F), 0x80 ||| (n &&& 0x3F)]
  else
    [0xF0 ||| (n >>> 18), 0x80 ||| ((n >>> 12) &&& 0x3F), 0x80 ||| ((n >>> 6) &&& 0x3F),
     0x80 ||| (n &&& 0x3F)]

def encodeUtf8 (s : String) : List Nat :=
  s.data.flatMap utf8Bytes

/-- Message padding: append 0x80, zero bytes to 56 mod 64, then the bit
length as 8 big-endian bytes. -/
def pad (msg : List Nat) : List Nat :=
  let len := msg.length
  let zeros := (64 + 56 - (len + 1) % 64) % 64
  let bitLen := len * 8
  msg ++ [0x80] ++ List.replicate zeros 0 ++
    [(bitLen >>> 56) % 256, (bitLen >>> 48) % 256, (bitLen >>> 40) % 256, (bitLen >>> 32) % 256,
     (bitLen >>> 24) % 256, (bitLen >>> 16) % 256, (bitLen >>> 8) % 256, bitLen % 256]

def bytesToWords : List Nat → List Nat
  | b0 :: b1 :: b2 :: b3 :: rest => (((b0 * 256 + b1) * 256 + b2) * 256 + b3) :: bytesToWords rest
  | _ => []

def chunkWords : List Nat → List (List Nat)
  | [] => []
  | w :: ws => ((w :: ws).take 16) :: chunkWords ((w :: ws).drop 16)
termination_by l => l.length
decreasing_by
  simp only [List.drop_succ_cons, List.length_drop, List.length_cons]
  omega

def wAt (l : List Nat) (i : Nat) : Nat := (l.get? i).getD 0

/-- Extend a 16-word block to the 64-entry message schedule. -/
def schedule (block : List Nat) : Nat → List Nat
  | 0 => block
  | n + 1 =>
    let w := schedule block n
    if w.length < 64 then
      let i := w.length
      w ++ [add32 (add32 (smallSigma1 (wAt w (i - 2))) (wAt w (i - 7)))
              (add32 (smallSigma0 (wAt w (i - 15))) (wAt w (i - 16)))]
    else w

structure Digest where
  a : Nat
  b : Nat
  c : Nat
  d : Nat
  e : Nat
  f : Nat
  g : Nat
  h : Nat

def compressStep (w k : Nat) (s : Digest) : Digest :=
  let t1 := add32 (add32 s.h (bigSigma1 s.e)) (add32 (chFn s.e s.f s.g) (add32 k w))
  let t2 := add32 (bigSigma0 s.a) (majFn s.a s.b s.c)
  ⟨add32 t1 t2, s.a, s.b, s.c, add32 s.d t1, s.e, s.f, s.g⟩

def compressBlock (hs : List Nat) (block : List Nat) : List Nat :=
  let ws := schedule block 48
  let s0 : Digest := ⟨wAt hs 0, wAt hs 1, wAt hs 2, wAt hs 3, wAt hs 4, wAt hs 5, wAt hs 6, wAt hs 7⟩
  let pairs := ws.zip K
  let s := pairs.foldl (fun st p => compressStep p.1 p.2 st) s0
  [add32 (wAt hs 0) s.a, add32 (wAt hs 1) s.b, add32 (wAt hs 2) s.c, add32 (wAt hs 3) s.d,
   add32 (wAt hs 4) s.e, add32 (wAt hs 5) s.f, add32 (wAt hs 6) s.g, add32 (wAt hs 7) s.h]

def hexDigit (n : Nat) : Char :=
  if n < 10 then Char.ofNat (48 + n) else Char.ofNat (87 + n)

def wordHex (w : Nat) : List Char :=
  [hexDigit ((w >>> 28) % 16), hexDigit ((w >>> 24) % 16), hexDigit ((w >>> 20) % 16),
   hexDigit ((w >>> 16) % 16), hexDigit ((w >>> 12) % 16), hexDigit ((w >>> 8) % 16),
   hexDigit ((w >>> 4) % 16), hexDigit (w % 16)]

/-- Hex digest of the SHA-256 hash of a string's UTF-8 bytes
(`crypto.createHash('sha256').update(s).digest('hex')`). -/
def sha256hex (s : String) : String :=
  let blocks := chunkWords (bytesToWords (pad (encodeUtf8 s)))
  let hs := blocks.foldl compressBlock initH
  ⟨hs.flatMap wordHex⟩

end SHA256

/-! ## JS string helpers -/

/-- JS `s.slice(0, n)` (also `''.join` results are sliced this way). -/
def jsSliceTo (s : String) (n : Nat) : String := ⟨s.data.take n⟩

/-- JS `array.join('')` over strings. -/
def jsJoin (l : List String) : String := ⟨(l.map String.data).flatten⟩

/-- JS `s.toLowerCase()` (ASCII range, which is all the pipeline feeds it). -/
def jsToLowerCase (s : String) : String := ⟨s.data.map Char.toLower⟩

/-! ## PipelineCache (packages/generator/src/lib/cache.ts)

File-based pipeline cache. The on-disk state (artifact files plus the
manifest control file) is carried explicitly in `CacheState`; artifact
payloads are carried in their serialized form, so `JSON.parse ∘
JSON.stringify` round-trips are the identity and file contents are plain
strings. -/

namespace Cache

structure Chapter where
  number : Nat
  title : String
  content : String
deriving DecidableEq

/-- Input book (parser output); only the fields the cache reads. -/
structure ParsedBook where
  title : String
  author : String
  chapters : List Chapter
deriving DecidableEq

/-- Manifest step record: `{ file, completedAt }`. -/
structure StepEntry where
  file : String
  completedAt : String
deriving DecidableEq

/-- A manifest slot is a single `StepEntry` for single-value steps or a
keyed record of entries for keyed steps (3b / 3c / 4). -/
inductive StepVal where
  | single (e : StepEntry)
  | keyed (m : List (String × StepEntry))
deriving DecidableEq

structure CacheManifest where
  version : Nat
  bookTitle : String
  bookAuthor : String
  targetNodes : Nat
  bookHash : String
  createdAt : String
  updatedAt : String
  steps : List (String × StepVal)
deriving DecidableEq

/-- Cache directory state: the manifest (held in memory and mirrored to
`_manifest.json` on every save) plus the artifact files, as an
association list from filename to serialized content. -/
structure CacheState where
  manifest : CacheManifest
  files : List (String × String)
deriving DecidableEq

/-- Ordered list of all step keys for downstream invalidation
(`STEP_ORDER` in cache.ts). -/
def STEP_ORDER : List String :=
  ["step1", "step2", "step3a", "step3b", "step3c", "step3", "step4"]

/-- JS `key.replace(/[^a-zA-Z0-9_-]/g, '_')`. -/
def sanitizeChar (c : Char) : Char :=
  if ('a' ≤ c ∧ c ≤ 'z') ∨ ('A' ≤ c ∧ c ≤ 'Z') ∨ ('0' ≤ c ∧ c ≤ '9') ∨ c = '_' ∨ c = '-'
  then c else '_'

def sanitizeKey (key : String) : String := ⟨key.data.map sanitizeChar⟩

/-- First 10000 chars of the joined chapter contents
(`book.chapters.map((ch) => ch.content).join('').slice(0, 10000)`). -/
def contentSample (book : ParsedBook) : String :=
  jsSliceTo (jsJoin (book.chapters.map (fun ch => ch.content))) 10000

def computeBookHash (book : ParsedBook) : String :=
  jsSliceTo (SHA256.sha256hex (contentSample book)) 8

/-- JS `title.toLowerCase().replace(/[^a-z0-9]+/g, '-')`: each maximal run
of characters outside [a-z0-9] collapses to a single hyphen. -/
def isSafeNameChar (c : Char) : Bool :=
  decide (('a' ≤ c ∧ c ≤ 'z') ∨ ('0' ≤ c ∧ c ≤ '9'))

def collapseRuns : Bool → List Char → List Char
  | _, [] => []
  | inRun, c :: rest =>
    if isSafeNameChar c then c :: collapseRuns false rest
    else if inRun then collapseRuns true rest
    else '-' :: collapseRuns true rest

/-- JS `.replace(/^-|-$/g, '')` on a run-collapsed name: strips the single
possible leading and trailing hyphen. -/
def stripEdgeDashes (l : List Char) : List Char :=
  let l1 := match l with
    | '-' :: rest => rest
    | other => other
  match l1.reverse with
  | '-' :: rest => rest.reverse
  | _ => l1

def safeName (title : String) : String :=
  ⟨(stripEdgeDashes (collapseRuns false (jsToLowerCase title).data)).take 40⟩

/-- Cache key `<sanitized-title>_n<targetNodes>_<8-char content hash>`
(`computeCacheKey` in cache.ts). -/
def computeCacheKey (book : ParsedBook) (targetNodes : Nat) : String :=
  safeName book.title ++ "_n" ++ toString targetNodes ++ "_" ++ computeBookHash book

/-- Fresh manifest written by the constructor when no manifest file
exists yet. -/
def initialState (book : ParsedBook) (targetNodes : Nat) (now : String) : CacheState :=
  { manifest :=
      { version := 1
        bookTitle := book.title
        bookAuthor := book.author
        targetNodes := targetNodes
        bookHash := computeBookHash book
        createdAt := now
        updatedAt := now
        steps := [] }
    files := [] }

/-- Deletion of one step's manifest entry and backing files, as performed
inside the `invalidateDownstream` loop body. -/
def invalidateStep (s : CacheState) (step : String) : CacheState :=
  match aget s.manifest.steps step with
  | none => s
  | some (StepVal.single e) =>
    { manifest := { s.manifest with steps := adel s.manifest.steps step }
      files := adel s.files e.file }
  | some (StepVal.keyed m) =>
    { manifest := { s.manifest with steps := adel s.manifest.steps step }
      files := m.foldl (fun fs p => adel fs p.2.file) s.files }

/-- Invalidate all steps after the given step (`invalidateDownstream`).
When `fromStep` is not in `STEP_ORDER`, `indexOf` returns -1 and the
method returns without touching anything. -/
def invalidateDownstream (s : CacheState) (fromStep : String) : CacheState :=
  if fromStep ∈ STEP_ORDER then
    (STEP_ORDER.drop (STEP_ORDER.indexOf fromStep + 1)).foldl invalidateStep s
  else s

/-- Test `has(step)` for a single-value step: a manifest entry exists and
its backing file is present. (The keyed arm is unreachable for the
single/keyed step-name split the pipeline uses.) -/
def hasStep (s : CacheState) (step : String) : Bool :=
  match aget s.manifest.steps step with
  | some (StepVal.single e) => ahas s.files e.file
  | _ => false

/-- Load a single-value step (the caller is expected to have checked
`has`; a missing entry or file is the fatal CacheCorruption path, here
`none`). -/
def loadStep (s : CacheState) (step : String) : Option String :=
  match aget s.manifest.steps step with
  | some (StepVal.single e) => aget s.files e.file
  | _ => none

/-- Save a single-value step: invalidate everything downstream first,
then write `<step>.json` and record the manifest entry; `saveManifest`
refreshes `updatedAt`. -/
def save (s : CacheState) (step : String) (data : String) (now : String) : CacheState :=
  let s1 := invalidateDownstream s step
  let filename := step ++ ".json"
  { manifest :=
      { s1.manifest with
        steps := aset s1.manifest.steps step (StepVal.single { file := filename, completedAt := now })
        updatedAt := now }
    files := aset s1.files filename data }

def hasKeyed (s : CacheState) (step key : String) : Bool :=
  match aget s.manifest.steps step with
  | some (StepVal.keyed m) =>
    match aget m key with
    | some e => ahas s.files e.file
    | none => false
  | _ => false

def loadKeyed (s : CacheState) (step key : String) : Option String :=
  match aget s.manifest.steps step with
  | some (StepVal.keyed m) =>
    match aget m key with
    | some e => aget s.files e.file
    | none => none
  | _ => none

/-- Save one partition of a keyed step: on the first save under the step
(no manifest slot yet) invalidate downstream and create the empty keyed
record; then write `<step>_<sanitized key>.json` and record the entry
under the raw key. The `single` arm of the second match is unreachable
(single and keyed step names are disjoint). -/
def saveKeyed (s : CacheState) (step key data now : String) : CacheState :=
  let s1 :=
    match aget s.manifest.steps step with
    | none =>
      let s2 := invalidateDownstream s step
      { s2 with manifest := { s2.manifest with steps := aset s2.manifest.steps step (StepVal.keyed []) } }
    | some _ => s
  let filename := step ++ "_" ++ sanitizeKey key ++ ".json"
  let steps2 :=
    match aget s1.manifest.steps step with
    | some (StepVal.keyed m) =>
      aset s1.manifest.steps step (StepVal.keyed (aset m key { file := filename, completedAt := now }))
    | _ => s1.manifest.steps
  { manifest := { s1.manifest with steps := steps2, updatedAt := now }
    files := aset s1.files filename data }

/-- Number of cached entries for a keyed step (`keyedCount`). -/
def keyedCount (s : CacheState) (step : String) : Nat :=
  match aget s.manifest.steps step with
  | some (StepVal.keyed m) => m.length
  | _ => 0

end Cache

/-! ## Cache theorems -/

namespace Cache

/-- Keyed-step manifest entry under a raw key, if any. -/
def keyedEntry (s : CacheState) (step key : String) : Option StepEntry :=
  match aget s.manifest.steps step with
  | some (StepVal.keyed m) => aget m key
  | _ => none

/-- Test whether the manifest slot for `step` holds a single-value entry. -/
def slotIsSingle (s : CacheState) (step : String) : Bool :=
  match aget s.manifest.steps step with
  | some (StepVal.single _) => true
  | _ => false

/-- Concrete book used by the cache traces below. -/
def traceBook : ParsedBook :=
  { title := "b", author := "a", chapters := [{ number := 1, title := "one", content := "hello" }] }

/-- Cache trace for the invalidation bug: save step6 (Validation output,
as `runPipeline` does), then save step1 again. -/
def c1State : CacheState :=
  save (save (initialState traceBook 44 "t0") "step6" "validated-game-data" "t1")
    "step1" "summary-data" "t2"

/-- C1, failing input: `runPipeline` caches the Enrichment and Validation
stages under the step names step5 and step6 via `cache.save`, but
`STEP_ORDER` stops at step4, so `invalidateDownstream` never deletes
them: after re-saving step1 the step6 manifest entry and its backing file
`step6.json` are both still present (while step2…step4 would have been
invalidated). -/
theorem save_step1_retains_step6 :
    hasStep c1State "step6" = true
    ∧ aget c1State.files "step6.json" = some "validated-game-data"
    ∧ aget c1State.manifest.steps "step6" =
        some (StepVal.single { file := "step6.json", completedAt := "t1" }) := by
  refine ⟨?_, ?_, ?_⟩ <;> rfl

/-- Saving a later single-value step does delete every `STEP_ORDER` step
strictly after it: companion fact to the C1 failing input, showing the
invalidation mechanism works for the steps `STEP_ORDER` does list. -/
theorem save_step1_invalidates_step2 :
    hasStep (save (save (initialState traceBook 44 "t0") "step2" "world" "t1")
        "step1" "summary" "t2") "step2" = false
    ∧ aget (save (save (initialState traceBook 44 "t0") "step2" "world" "t1")
        "step1" "summary" "t2").files "step2.json" = none := by
  refine ⟨?_, ?_⟩ <;> rfl

/-- Unfolding equation for `saveKeyed` when the step has no manifest slot
yet (the first save): invalidate downstream, create the keyed slot, then
append the entry and write the file. -/
theorem saveKeyed_eq_none (s : CacheState) (step key data now : String)
    (h : aget s.manifest.steps step = none) :
    saveKeyed s step key data now =
      { manifest :=
          { (invalidateDownstream s step).manifest with
            steps := aset (aset (invalidateDownstream s step).manifest.steps step (StepVal.keyed []))
              step (StepVal.keyed [(key, { file := step ++ "_" ++ sanitizeKey key ++ ".json", completedAt := now })])
            updatedAt := now }
        files := aset (invalidateDownstream s step).files
          (step ++ "_" ++ sanitizeKey key ++ ".json") data } := by
  unfold saveKeyed
  simp only [h, aget_aset_self]
  rfl

/-- Unfolding equation for `saveKeyed` when the step already holds a
keyed slot (every save after the first): no invalidation, entry updated
in place, file written. -/
theorem saveKeyed_eq_keyed (s : CacheState) (step key data now : String)
    (m : List (String × StepEntry))
    (h : aget s.manifest.steps step = some (StepVal.keyed m)) :
    saveKeyed s step key data now =
      { manifest :=
          { s.manifest with
            steps := aset s.manifest.steps step
              (StepVal.keyed (aset m key { file := step ++ "_" ++ sanitizeKey key ++ ".json", completedAt := now }))
            updatedAt := now }
        files := aset s.files (step ++ "_" ++ sanitizeKey key ++ ".json") data } := by
  unfold saveKeyed
  simp only [h]

/-- Unfolding equation for `saveKeyed` on a single-value slot (unreachable
for the disjoint step-name sets the pipeline uses): the manifest steps
are left alone and only the file is written. -/
theorem saveKeyed_eq_single (s : CacheState) (step key data now : String)
    (e : StepEntry)
    (h : aget s.manifest.steps step = some (StepVal.single e)) :
    saveKeyed s step key data now =
      { manifest := { s.manifest with updatedAt := now }
        files := aset s.files (step ++ "_" ++ sanitizeKey key ++ ".json") data } := by
  unfold saveKeyed
  simp only [h]

/-- C3: partition isolation of keyed saves. For any cache state:
(1) a sibling partition's manifest entry and backing file survive a later
`saveKeyed` of a different key of the same step; (2) when the step
already has a manifest slot (i.e. on every save after the first) no other
step's manifest slot changes and no file is deleted — no re-invalidation;
(3) on the first save under the step the effect on the other steps'
slots is exactly one `invalidateDownstream`; (4) after any save the slot
exists, so by (2) subsequent sibling saves never invalidate again. -/
theorem saveKeyed_partition_isolation (s : CacheState) (step k k2 d now : String) :
    (k ≠ k2 → hasKeyed s step k = true →
      hasKeyed (saveKeyed s step k2 d now) step k = true
      ∧ keyedEntry (saveKeyed s step k2 d now) step k = keyedEntry s step k)
    ∧ (ahas s.manifest.steps step = true →
      (∀ st, st ≠ step →
        aget (saveKeyed s step k2 d now).manifest.steps st = aget s.manifest.steps st)
      ∧ (∀ f, ahas s.files f = true → ahas (saveKeyed s step k2 d now).files f = true))
    ∧ (ahas s.manifest.steps step = false →
      ∀ st, st ≠ step →
        aget (saveKeyed s step k2 d now).manifest.steps st =
          aget (invalidateDownstream s step).manifest.steps st)
    ∧ ahas (saveKeyed s step k2 d now).manifest.steps step = true := by
  cases hslot : aget s.manifest.steps step with
  | none =>
    rw [saveKeyed_eq_none s step k2 d now hslot]
    refine ⟨?_, ?_, ?_, ?_⟩
    · intro _ hk
      unfold hasKeyed at hk
      rw [hslot] at hk
      simp at hk
    · intro h
      rw [ahas, hslot] at h
      simp at h
    · intro _ st hst
      simp only
      rw [aget_aset_ne _ _ _ _ (fun h => hst h.symm),
        aget_aset_ne _ _ _ _ (fun h => hst h.symm)]
    · simp [ahas, aget_aset_self]
  | some v =>
    cases v with
    | single e =>
      rw [saveKeyed_eq_single s step k2 d now e hslot]
      refine ⟨?_, ?_, ?_, ?_⟩
      · intro _ hk
        unfold hasKeyed at hk
        rw [hslot] at hk
        simp at hk
      · intro _
        refine ⟨fun st _ => rfl, fun f hf => ahas_aset _ _ _ _ hf⟩
      · intro h
        rw [ahas, hslot] at h
        simp at h
      · simp [ahas, hslot]
    | keyed m =>
      rw [saveKeyed_eq_keyed s step k2 d now m hslot]
      refine ⟨?_, ?_, ?_, ?_⟩
      · intro hk hprev
        have hprev2 : (match aget m k with
            | some e => ahas s.files e.file
            | none => false) = true := by
          unfold hasKeyed at hprev
          rw [hslot] at hprev
          exact hprev
        cases he : aget m k with
        | none =>
          rw [he] at hprev2
          simp at hprev2
        | some e =>
          rw [he] at hprev2
          simp only at hprev2
          constructor
          · unfold hasKeyed
            simp only [aget_aset_self]
            rw [aget_aset_ne _ _ _ _ (fun h => hk h.symm), he]
            simp only
            exact ahas_aset _ _ _ _ hprev2
          · unfold keyedEntry
            simp only [aget_aset_self, hslot]
            rw [aget_aset_ne _ _ _ _ (fun h => hk h.symm)]
      · intro _
        refine ⟨fun st hst => aget_aset_ne _ _ _ _ (fun h => hst h.symm),
          fun f hf => ahas_aset _ _ _ _ hf⟩
      · intro h
        rw [ahas, hslot] at h
        simp at h
      · simp [ahas, aget_aset_self]

/-- Concrete state with one saved partition, for the C3 witness. -/
def c3State : CacheState :=
  saveKeyed (initialState traceBook 200 "t0") "step3b" "act_1" "chapters-of-act-1" "t1"

/-- Witness for C3 at a concrete input: partition act_1 survives a later
save of sibling act_2, which does not touch the step1 slot either. -/
theorem saveKeyed_partition_isolation_witness :
    hasKeyed (saveKeyed c3State "step3b" "act_2" "chapters-of-act-2" "t2") "step3b" "act_1" = true
    ∧ aget (saveKeyed c3State "step3b" "act_2" "chapters-of-act-2" "t2").manifest.steps "step1" =
        aget c3State.manifest.steps "step1" :=
  ⟨((saveKeyed_partition_isolation c3State "step3b" "act_1" "act_2" "chapters-of-act-2" "t2").1
      (by decide) (by decide)).1,
   ((saveKeyed_partition_isolation c3State "step3b" "act_1" "act_2" "chapters-of-act-2" "t2").2.1
      (by decide)).1 "step1" (by decide)⟩

/-- C10: two distinct raw keys of the same keyed step whose sanitized
forms coincide share one backing filename, so the second save silently
overwrites the first key's file while both manifest entries survive:
`loadKeyed` of the first key afterwards returns the second key's data,
although right after its own save it returned the data saved under it. -/
theorem saveKeyed_sanitize_collision (s : CacheState) (step k1 k2 d1 d2 n1 n2 : String)
    (hk : k1 ≠ k2)
    (hs : sanitizeKey k1 = sanitizeKey k2)
    (hslot : slotIsSingle s step = false) :
    loadKeyed (saveKeyed (saveKeyed s step k1 d1 n1) step k2 d2 n2) step k1 = some d2
    ∧ loadKeyed (saveKeyed s step k1 d1 n1) step k1 = some d1 := by
  have hfn : step ++ "_" ++ sanitizeKey k2 ++ ".json" = step ++ "_" ++ sanitizeKey k1 ++ ".json" := by
    rw [hs]
  have key1 : ∃ m1, aget (saveKeyed s step k1 d1 n1).manifest.steps step = some (StepVal.keyed m1)
      ∧ aget m1 k1 = some { file := step ++ "_" ++ sanitizeKey k1 ++ ".json", completedAt := n1 }
      ∧ aget (saveKeyed s step k1 d1 n1).files (step ++ "_" ++ sanitizeKey k1 ++ ".json") = some d1 := by
    cases hget : aget s.manifest.steps step with
    | none =>
      rw [saveKeyed_eq_none s step k1 d1 n1 hget]
      refine ⟨[(k1, { file := step ++ "_" ++ sanitizeKey k1 ++ ".json", completedAt := n1 })],
        ?_, ?_, ?_⟩
      · simp only [aget_aset_self]
      · simp [aget]
      · simp only [aget_aset_self]
    | some v =>
      cases v with
      | single e =>
        unfold slotIsSingle at hslot
        rw [hget] at hslot
        simp at hslot
      | keyed m =>
        rw [saveKeyed_eq_keyed s step k1 d1 n1 m hget]
        refine ⟨aset m k1 { file := step ++ "_" ++ sanitizeKey k1 ++ ".json", completedAt := n1 },
          ?_, ?_, ?_⟩
        · simp only [aget_aset_self]
        · exact aget_aset_self _ _ _
        · simp only [aget_aset_self]
  obtain ⟨m1, hm1, hk1, hf1⟩ := key1
  constructor
  · rw [saveKeyed_eq_keyed _ step k2 d2 n2 m1 hm1]
    unfold loadKeyed
    simp only [aget_aset_self]
    rw [aget_aset_ne _ _ _ _ (fun h => hk h.symm), hk1]
    simp only
    rw [hfn, aget_aset_self]
  · unfold loadKeyed
    rw [hm1]
    show (match aget m1 k1 with
      | some e => aget (saveKeyed s step k1 d1 n1).files e.file
      | none => none) = some d1
    rw [hk1]
    exact hf1

/-- Witness for C10: raw keys "ch 1" and "ch_1" both sanitize to "ch_1";
saving "ch 1" then "ch_1" makes `loadKeyed` of "ch 1" return the data
saved under "ch_1". -/
theorem saveKeyed_sanitize_collision_witness :
    loadKeyed (saveKeyed (saveKeyed (initialState traceBook 200 "t0") "step3c" "ch 1" "nodes-1" "t1")
        "step3c" "ch_1" "nodes-2" "t2") "step3c" "ch 1" = some "nodes-2"
    ∧ loadKeyed (saveKeyed (initialState traceBook 200 "t0") "step3c" "ch 1" "nodes-1" "t1")
        "step3c" "ch 1" = some "nodes-1" :=
  saveKeyed_sanitize_collision (initialState traceBook 200 "t0") "step3c" "ch 1" "ch_1"
    "nodes-1" "nodes-2" "t1" "t2" (by decide) (by decide) (by decide)

end Cache

/-! ## Cache-key theorems (C8) -/

namespace Cache

/-- C8 (amended): the cache directory key is a deterministic function of
the book title, the first 10000 characters of the joined chapter
contents, and the targetNodes parameter — identical runs reuse the same
directory. (The author and everything past the 10000-character sample
window do not enter the key, so they cannot separate two runs.) -/
theorem computeCacheKey_deterministic (b1 b2 : ParsedBook) (n1 n2 : Nat)
    (ht : b1.title = b2.title)
    (hc : contentSample b1 = contentSample b2)
    (hn : n1 = n2) :
    computeCacheKey b1 n1 = computeCacheKey b2 n2 := by
  unfold computeCacheKey computeBookHash
  rw [ht, hc, hn]

/-- Book whose single chapter is 10001 copies of the letter a. -/
def c8BookA : ParsedBook :=
  { title := "pride", author := "x",
    chapters := [{ number := 1, title := "one", content := ⟨List.replicate 10001 'a'⟩ }] }

/-- Book like `c8BookA` but whose chapter text swaps the final letter for
a b — a difference past the 10000-character sample window. -/
def c8BookB : ParsedBook :=
  { title := "pride", author := "x",
    chapters := [{ number := 1, title := "one", content := ⟨List.replicate 10000 'a' ++ ['b']⟩ }] }

theorem c8_contentSample_eq : contentSample c8BookA = contentSample c8BookB := by
  unfold contentSample c8BookA c8BookB jsJoin jsSliceTo
  simp only [List.map_cons, List.map_nil, List.flatten_cons, List.flatten_nil, List.append_nil]
  have hmin : min 10000 10001 = 10000 := by omega
  have h1 : (List.replicate 10001 'a').take 10000 = List.replicate 10000 'a' := by
    rw [List.take_replicate, hmin]
  have h2 : ((List.replicate 10000 'a' ++ ['b']) : List Char).take 10000
      = List.replicate 10000 'a' := by
    rw [List.take_append_eq_append_take, List.take_replicate, List.length_replicate]
    have hz : 10000 - 10000 = 0 := by omega
    rw [hz, List.take_zero, List.append_nil, Nat.min_self]
  rw [h1, h2]

/-- C8, counterexample: two books with different chapter content (they
differ in the 10001st character) map to the same cache directory key, so
two runs with different input content can collide; the key only depends
on the first 10000 characters of the joined chapter text. -/
theorem computeCacheKey_not_injective :
    computeCacheKey c8BookA 44 = computeCacheKey c8BookB 44
    ∧ c8BookA.chapters ≠ c8BookB.chapters := by
  constructor
  · unfold computeCacheKey computeBookHash
    rw [c8_contentSample_eq]
    have ht : c8BookA.title = c8BookB.title := rfl
    rw [ht]
  · intro h
    have hch : ({ number := 1, title := "one", content := ⟨List.replicate 10001 'a'⟩ } : Chapter)
        = { number := 1, title := "one", content := ⟨List.replicate 10000 'a' ++ ['b']⟩ } := by
      have := h
      unfold c8BookA c8BookB at this
      simp only at this
      exact (List.cons.injEq _ _ _ _).mp this |>.1
    have hdata : (List.replicate 10001 'a' : List Char) = List.replicate 10000 'a' ++ ['b'] :=
      congrArg (fun c : Chapter => c.content.data) hch
    have hmem : ('b' : Char) ∈ (List.replicate 10001 'a' : List Char) := by
      rw [hdata]
      exact List.mem_append_right _ (List.mem_singleton.mpr rfl)
    rw [List.mem_replicate] at hmem
    exact absurd hmem.2 (by decide)


/-- Witness for the C8 determinism theorem, applied to the two concrete
books (equal titles and equal 10000-character samples). -/
theorem computeCacheKey_deterministic_witness :
    computeCacheKey c8BookA 44 = computeCacheKey c8BookB 44 :=
  computeCacheKey_deterministic c8BookA c8BookB 44 44 rfl c8_contentSample_eq rfl

end Cache

/-! ## Task Executor (C9) -/

namespace Exec

/-- Modelled from the spec: `callBatchParallel` — the Task Executor of
spec section 4.2 — is imported from `./client` by pipeline.ts and
node-content-generator.ts, but its implementation is not among the
sources. Spec wording modelled here: "Input: an ordered list of
zero-argument deferred task functions, plus a concurrency limit C. Keeps
at most C tasks unsettled at any time; as one completes, the next queued
task starts. … On the first task failure: stop starting new tasks, allow
already-started tasks to finish …". Tasks are started in queue order, so
a run state records how many tasks have been started, which started task
indices have settled, and whether a failure has surfaced. -/
structure ExecState where
  numTasks : Nat
  limit : Nat
  started : Nat
  settled : List Nat
  failed : Bool
deriving DecidableEq

/-- Initial state: the executor fills the pool up to the concurrency
limit (at most C tasks start before any completion). -/
def ExecState.init (numTasks limit : Nat) : ExecState :=
  { numTasks := numTasks
    limit := limit
    started := min limit numTasks
    settled := []
    failed := false }

/-- Number of unsettled (started but not completed) tasks. -/
def ExecState.unsettled (s : ExecState) : Nat :=
  s.started - s.settled.length

/-- One scheduling event: a started, not-yet-settled task `i` settles.
On success the next queued task starts — unless a failure has surfaced
or the queue is empty. On failure no new task starts and the failure is
recorded (already-started tasks keep running and settle later). -/
inductive Step : ExecState → ExecState → Prop where
  | completeOk (s : ExecState) (i : Nat) (hi : i < s.started) (hn : i ∉ s.settled) :
      Step s
        { s with
          settled := i :: s.settled
          started := if s.failed = false ∧ s.started < s.numTasks then s.started + 1 else s.started }
  | completeErr (s : ExecState) (i : Nat) (hi : i < s.started) (hn : i ∉ s.settled) :
      Step s { s with settled := i :: s.settled, failed := true }

/-- States reachable by the executor on a batch of `numTasks` tasks under
concurrency limit `limit`. -/
inductive Reachable (numTasks limit : Nat) : ExecState → Prop where
  | init : Reachable numTasks limit (ExecState.init numTasks limit)
  | step {s t : ExecState} : Reachable numTasks limit s → Step s t → Reachable numTasks limit t

/-- Settled indices stay within the started range and are distinct, so
`settled.length` counts distinct completions. -/
theorem reachable_settled_bound {numTasks limit : Nat} {s : ExecState}
    (h : Reachable numTasks limit s) :
    s.settled.Nodup ∧ ∀ i ∈ s.settled, i < s.started := by
  induction h with
  | init => simp [ExecState.init]
  | step hr hstep ih =>
    cases hstep with
    | completeOk i hi hn =>
      refine ⟨List.nodup_cons.mpr ⟨hn, ih.1⟩, ?_⟩
      intro j hj
      simp only at hj ⊢
      rcases List.mem_cons.mp hj with rfl | hj2
      · split <;> omega
      · have := ih.2 j hj2
        split <;> omega
    | completeErr i hi hn =>
      refine ⟨List.nodup_cons.mpr ⟨hn, ih.1⟩, ?_⟩
      intro j hj
      rcases List.mem_cons.mp hj with rfl | hj2
      · exact hi
      · exact ih.2 j hj2

/-- Helper invariant: the unsettled count never exceeds the limit. -/
theorem executor_unsettled_le {numTasks limit : Nat} {s : ExecState}
    (h : Reachable numTasks limit s) : s.unsettled ≤ limit := by
  induction h with
  | init =>
    unfold ExecState.init ExecState.unsettled
    simp only [List.length_nil]
    omega
  | step hr hst ih =>
    cases hst with
    | completeOk i hi hn =>
      unfold ExecState.unsettled at ih ⊢
      simp only [List.length_cons]
      split <;> omega
    | completeErr i hi hn =>
      unfold ExecState.unsettled at ih ⊢
      simp only [List.length_cons]
      omega

/-- C9: at every reachable state the executor has at most `limit` tasks
unsettled, and every scheduling event settles exactly one task while
starting at most one new task — the next queued task starts only as one
completes. -/
theorem executor_concurrency_bound {numTasks limit : Nat} {s : ExecState}
    (h : Reachable numTasks limit s) :
    s.unsettled ≤ limit
    ∧ ∀ t : ExecState, Step s t →
        t.settled.length = s.settled.length + 1 ∧ t.started ≤ s.started + 1 := by
  refine ⟨executor_unsettled_le h, ?_⟩
  intro t ht
  cases ht with
  | completeOk i hi hn =>
    constructor
    · simp
    · simp only
      split <;> omega
  | completeErr i hi hn => simp

/-- Witness for C9: a concrete reachable state of a 3-task batch at
limit 2, after the first task settled successfully (which started the
third task). -/
theorem executor_concurrency_bound_witness :
    ({ ExecState.init 3 2 with
        settled := [0]
        started := if (ExecState.init 3 2).failed = false
            ∧ (ExecState.init 3 2).started < (ExecState.init 3 2).numTasks
          then (ExecState.init 3 2).started + 1 else (ExecState.init 3 2).started } :
      ExecState).unsettled ≤ 2 :=
  (executor_concurrency_bound
    (Reachable.step (Reachable.init)
      (Step.completeOk (ExecState.init 3 2) 0 (by decide) (List.not_mem_nil 0)))).1

end Exec

/-! ## Node type (shared by scene-generator GraphNode and the runtime
StoryNode: the closed union narrative | choice | ending | checkpoint). -/

inductive NodeType where
  | narrative
  | choice
  | ending
  | checkpoint
deriving DecidableEq

/-! ## Connection resolver (graph/connection-resolver.ts) -/

namespace Resolver

/-- Graph skeleton node (scene-generator.ts `GraphNode`). -/
structure GraphNode where
  id : String
  type : NodeType
  title : String := ""
  locationId : String := ""
  presentCharacters : List String := []
  availableObjects : List String := []
  chapterNumber : Nat := 0
  chapterTitle : String := ""
  mood : String := ""
  canonicalPath : Bool := true
  divergenceLevel : Nat := 0
  connections : List String := []
  backConnections : List String := []
  interactionHints : List String := []
  plotBeatRef : Option Nat := none
deriving DecidableEq

/-- Narrative arc of a chapter (chapter-generator.ts). -/
structure NarrativeArc where
  id : String
  isCanonical : Bool
  summary : String
  branchCondition : Option String := none
deriving DecidableEq

/-- Chapter descriptor (chapter-generator.ts `ChapterStructure`). -/
structure ChapterDesc where
  id : String
  actId : String
  title : String := ""
  summary : String := ""
  narrativeArcs : List NarrativeArc := []
  targetNodeCount : Nat := 0
  entryPorts : List String := []
  exitPorts : List String := []
  locations : List String := []
  characters : List String := []
deriving DecidableEq

structure ChapterStructure where
  chapters : List ChapterDesc
deriving DecidableEq

/-- Act descriptor (act-generator.ts `ActStructure`). -/
structure ActDesc where
  id : String
  title : String := ""
  summary : String := ""
  plotBeats : List Nat := []
  mainCharacters : List String := []
  locations : List String := []
  targetNodeCount : Nat := 0
  entryPoints : List String := []
  exitPoints : List String := []
deriving DecidableEq

structure ActStructure where
  acts : List ActDesc
deriving DecidableEq

/-- Per-chapter node list handed to the resolver. -/
structure ChapterGraph where
  chapterId : String
  nodes : List GraphNode
deriving DecidableEq

/-- Act grouping of the final `StoryGraph`. -/
structure ActGroup where
  act : Int
  nodeIds : List String
  description : String
deriving DecidableEq

structure StoryGraph where
  nodes : List GraphNode
  startNodeId : String
  actStructure : List ActGroup
deriving DecidableEq

/-- Flattened chapter declarations
(`chapterStructures.flatMap((cs) => cs.chapters)`). -/
def allChapters (css : List ChapterStructure) : List ChapterDesc :=
  css.flatMap (fun cs => cs.chapters)

/-- First chapter declaration with the given id (`Array.find`). -/
def chapterDecl (css : List ChapterStructure) (cid : String) : Option ChapterDesc :=
  (allChapters css).find? (fun c => c.id == cid)

/-- Port-map contribution of one chapter graph: each declared entry port
maps to the chapter's first generated node unless the port is already
mapped (`if (cg.nodes.length > 0 && !portToNodeId.has(port))`). -/
def addChapterPorts (cg : ChapterGraph) (pm : List (String × String)) (ports : List String) :
    List (String × String) :=
  ports.foldl
    (fun pm p =>
      match cg.nodes.head? with
      | some n0 => if ahas pm p then pm else aset pm p n0.id
      | none => pm)
    pm

/-- Port → node-id map built over the chapter graphs in order: the first
write of a port name wins, later duplicate declarations are skipped
without any report. -/
def buildPortMap (css : List ChapterStructure) (cgs : List ChapterGraph) :
    List (String × String) :=
  cgs.foldl
    (fun pm cg =>
      match chapterDecl css cg.chapterId with
      | some ch => addChapterPorts cg pm ch.entryPorts
      | none => pm)
    []

/-- All nodes of all chapter graphs in order (`allNodes`). -/
def allNodes (cgs : List ChapterGraph) : List GraphNode :=
  cgs.flatMap (fun cg => cg.nodes)

def allNodeIds (cgs : List ChapterGraph) : List String :=
  (allNodes cgs).map (fun n => n.id)

/-- Rewrite of one connection entry: valid node ids are kept, known port
names are replaced by the mapped id — except that JS truthiness drops an
empty-string mapped id (`if (resolved) return resolved`) — and anything
else is kept as-is for the Validator. -/
def resolveEntry (ids : List String) (pm : List (String × String)) (conn : String) : String :=
  if conn ∈ ids then conn
  else
    match aget pm conn with
    | some r => if r = "" then conn else r
    | none => conn

def rewriteNode (ids : List String) (pm : List (String × String)) (n : GraphNode) : GraphNode :=
  { n with
    connections := n.connections.map (resolveEntry ids pm)
    backConnections := n.backConnections.map (resolveEntry ids pm) }

/-- Hub predicate: checkpoint or choice nodes. -/
def isHub (n : GraphNode) : Bool :=
  n.type = NodeType.checkpoint ∨ n.type = NodeType.choice

/-- Back-connection injection for one node: a non-ending non-hub node
with no back connections gets one to a hub sharing its location, else to
the first hub overall, if any hub exists. -/
def injectBack (hubs : List GraphNode) (n : GraphNode) : GraphNode :=
  if n.type = NodeType.ending then n
  else if hubs.any (fun h => h.id == n.id) then n
  else if n.backConnections = [] then
    match
      (match hubs.find? (fun h => h.locationId == n.locationId) with
       | some h => some h
       | none => hubs.head?) with
    | some hub => { n with backConnections := n.backConnections ++ [hub.id] }
    | none => n
  else n

/-- JS `parseInt(str, 10)` on an already-trimmed id fragment: leading
digits after an optional sign, `none` when there is no digit. -/
def digitsVal (l : List Char) : Option Nat :=
  let ds := l.takeWhile Char.isDigit
  if ds.isEmpty then none
  else some (ds.foldl (fun acc c => acc * 10 + (c.toNat - 48)) 0)

def jsParseInt (s : String) : Option Int :=
  match s.data.dropWhile Char.isWhitespace with
  | '-' :: rest => (digitsVal rest).map (fun n => -(n : Int))
  | '+' :: rest => (digitsVal rest).map (fun n => (n : Int))
  | rest => (digitsVal rest).map (fun n => (n : Int))

/-- JS `s.replace('act_', '')`: remove the first occurrence of the
substring `act_`. -/
def removeActPrefixAux : List Char → List Char
  | [] => []
  | c :: rest =>
    if ['a', 'c', 't', '_'].isPrefixOf (c :: rest) then (c :: rest).drop 4
    else c :: removeActPrefixAux rest

def removeActUnderscore (s : String) : String := ⟨removeActPrefixAux s.data⟩

/-- JS `parseInt(act.id.replace('act_', ''), 10) || 1`: NaN and 0 are
falsy and fall back to 1. -/
def actNumber (actId : String) : Int :=
  match jsParseInt (removeActUnderscore actId) with
  | none => 1
  | some n => if n = 0 then 1 else n

/-- Act grouping of the final graph (`graphActStructure`). -/
def buildActStructure (actStructure : ActStructure) (css : List ChapterStructure)
    (cgs : List ChapterGraph) : List ActGroup :=
  actStructure.acts.map (fun act =>
    let actChapters := (allChapters css).filter (fun c => c.actId == act.id)
    let actNodeIds :=
      (cgs.filter (fun cg => actChapters.any (fun c => c.id == cg.chapterId))).flatMap
        (fun cg => cg.nodes.map (fun n => n.id))
    { act := actNumber act.id, nodeIds := actNodeIds, description := act.summary })

/-- Resolve port-based connections across chapters into a unified
StoryGraph (`resolveConnections`). The source also fills a `nodeById`
map that is never read afterwards; it has no observable effect and is
omitted. Node objects are mutated in place in JS; here the same
per-node update is applied by mapping, which is equivalent because each
node's rewrite and injection read only the port map, the id set and the
hub list. -/
def resolveConnections (actStructure : ActStructure) (css : List ChapterStructure)
    (cgs : List ChapterGraph) : StoryGraph :=
  let pm := buildPortMap css cgs
  let nodes0 := allNodes cgs
  let ids := allNodeIds cgs
  let nodes1 := nodes0.map (rewriteNode ids pm)
  let hubs := nodes1.filter isHub
  let nodes2 := nodes1.map (injectBack hubs)
  let startNodeId :=
    match aget pm "game_start" with
    | some v => v
    | none =>
      match nodes0.head? with
      | some n => n.id
      | none => ""
  { nodes := nodes2
    startNodeId := startNodeId
    actStructure := buildActStructure actStructure css cgs }

end Resolver

/-! ## Resolver theorems (C5, C6) -/

namespace Resolver

/-- Predicate: this chapter graph serves port `p` — it has nodes, its
chapter declaration exists, and that declaration lists `p` among its
entry ports. -/
def portServed (css : List ChapterStructure) (p : String) (cg : ChapterGraph) : Bool :=
  !cg.nodes.isEmpty &&
    (match chapterDecl css cg.chapterId with
     | some ch => decide (p ∈ ch.entryPorts)
     | none => false)

theorem aget_addChapterPorts (cg : ChapterGraph) (ports : List String)
    (pm : List (String × String)) (p : String) :
    aget (addChapterPorts cg pm ports) p =
      match cg.nodes.head? with
      | some n0 => if p ∈ ports ∧ ahas pm p = false then some n0.id else aget pm p
      | none => aget pm p := by
  induction ports generalizing pm with
  | nil =>
    cases h : cg.nodes.head? with
    | none => rfl
    | some n0 => simp [addChapterPorts]
  | cons q rest ih =>
    cases h : cg.nodes.head? with
    | none =>
      have hstep : addChapterPorts cg pm (q :: rest) = addChapterPorts cg pm rest := by
        unfold addChapterPorts
        simp only [List.foldl_cons, h]
      rw [hstep, ih]
      rw [h]
    | some n0 =>
      have hstep : addChapterPorts cg pm (q :: rest)
          = addChapterPorts cg (if ahas pm q then pm else aset pm q n0.id) rest := by
        unfold addChapterPorts
        simp only [List.foldl_cons, h]
      rw [hstep, ih, h]
      by_cases hq : q = p
      · subst hq
        by_cases hh : ahas pm q = true
        · simp [hh]
        · have hh2 : ahas pm q = false := by
            cases hfb : ahas pm q
            · rfl
            · exact absurd hfb hh
          have hnone : aget pm q = none := by
            unfold ahas at hh2
            cases hx : aget pm q
            · rfl
            · rw [hx] at hh2
              simp at hh2
          simp [hh2, ahas, hnone]
      · by_cases hh : ahas pm q = true
        · simp only [if_pos hh]
          have : (p ∈ q :: rest ∧ ahas pm p = false) ↔ (p ∈ rest ∧ ahas pm p = false) := by
            constructor
            · rintro ⟨hmem, hf⟩
              rcases List.mem_cons.mp hmem with rfl | hmem2
              · exact absurd rfl hq
              · exact ⟨hmem2, hf⟩
            · rintro ⟨hmem, hf⟩
              exact ⟨List.mem_cons_of_mem _ hmem, hf⟩
          rw [if_congr this rfl rfl]
        · simp only [if_neg hh]
          have hne : q ≠ p := hq
          have hg : aget (aset pm q n0.id) p = aget pm p := aget_aset_ne pm q p n0.id hne
          have hhp : ahas (aset pm q n0.id) p = ahas pm p := by
            unfold ahas
            rw [hg]
          rw [hg, hhp]
          have : (p ∈ q :: rest ∧ ahas pm p = false) ↔ (p ∈ rest ∧ ahas pm p = false) := by
            constructor
            · rintro ⟨hmem, hf⟩
              rcases List.mem_cons.mp hmem with rfl | hmem2
              · exact absurd rfl hq
              · exact ⟨hmem2, hf⟩
            · rintro ⟨hmem, hf⟩
              exact ⟨List.mem_cons_of_mem _ hmem, hf⟩
          rw [if_congr this rfl rfl]


theorem ahas_eq_false_iff {β : Type} (l : List (String × β)) (k : String) :
    ahas l k = false ↔ aget l k = none := by
  unfold ahas
  cases aget l k <;> simp

/-- One outer-fold step preserves an already-mapped port's value. -/
theorem aget_outerStep_of_ahas (css : List ChapterStructure) (cg : ChapterGraph)
    (pm : List (String × String)) (p : String) (hh : ahas pm p = true) :
    aget
      (match chapterDecl css cg.chapterId with
       | some ch => addChapterPorts cg pm ch.entryPorts
       | none => pm) p = aget pm p := by
  cases hdecl : chapterDecl css cg.chapterId with
  | none => rfl
  | some ch =>
    rw [aget_addChapterPorts]
    cases hhd : cg.nodes.head? with
    | none => rfl
    | some n0 =>
      simp [hh]

theorem aget_buildPortMapAux (css : List ChapterStructure) (p : String) :
    ∀ (cgs : List ChapterGraph) (pm : List (String × String)),
      aget (cgs.foldl
        (fun pm cg =>
          match chapterDecl css cg.chapterId with
          | some ch => addChapterPorts cg pm ch.entryPorts
          | none => pm) pm) p =
      if ahas pm p then aget pm p
      else ((cgs.find? (portServed css p)).bind (fun cg => cg.nodes.head?)).map
        (fun n => n.id) := by
  intro cgs
  induction cgs with
  | nil =>
    intro pm
    simp only [List.foldl_nil, List.find?_nil]
    cases hh : ahas pm p
    · simp [(ahas_eq_false_iff pm p).mp hh]
    · simp
  | cons cg rest ih =>
    intro pm
    simp only [List.foldl_cons]
    cases hh : ahas pm p with
    | true =>
      have hpm := aget_outerStep_of_ahas css cg pm p hh
      have hpm2 : ahas (match chapterDecl css cg.chapterId with
          | some ch => addChapterPorts cg pm ch.entryPorts
          | none => pm) p = true := by
        unfold ahas
        rw [hpm]
        unfold ahas at hh
        exact hh
      rw [ih, hpm2, if_pos rfl, hpm, if_pos rfl]
    | false =>
      have hnone : aget pm p = none := (ahas_eq_false_iff pm p).mp hh
      rw [List.find?_cons]
      cases hserved : portServed css p cg with
      | true =>
        -- cg serves p: decl exists, nodes nonempty, p among entry ports
        unfold portServed at hserved
        cases hdecl : chapterDecl css cg.chapterId with
        | none => rw [hdecl] at hserved; simp at hserved
        | some ch =>
          rw [hdecl] at hserved
          have hserved2 : (!cg.nodes.isEmpty && decide (p ∈ ch.entryPorts)) = true := hserved
          obtain ⟨hne, hmemd⟩ := Bool.and_eq_true_iff.mp hserved2
          have hmem : p ∈ ch.entryPorts := of_decide_eq_true hmemd
          cases hhd : cg.nodes.head? with
          | none =>
            have hemp : cg.nodes.isEmpty = true := by
              cases hn : cg.nodes
              · rfl
              · rw [hn] at hhd; simp at hhd
            rw [hemp] at hne
            simp at hne
          | some n0 =>
            have hpm : aget (addChapterPorts cg pm ch.entryPorts) p = some n0.id := by
              rw [aget_addChapterPorts, hhd]
              simp [hmem, hh]
            have hpm2 : ahas (addChapterPorts cg pm ch.entryPorts) p = true := by
              unfold ahas
              rw [hpm]
              rfl
            rw [ih, hpm2, if_pos rfl, hpm]
            simp [hhd]
      | false =>
        -- cg does not serve p: its step leaves p unmapped
        have hpm : aget
            (match chapterDecl css cg.chapterId with
             | some ch => addChapterPorts cg pm ch.entryPorts
             | none => pm) p = none := by
          cases hdecl : chapterDecl css cg.chapterId with
          | none => exact hnone
          | some ch =>
            rw [aget_addChapterPorts]
            cases hhd : cg.nodes.head? with
            | none => exact hnone
            | some n0 =>
              unfold portServed at hserved
              rw [hdecl] at hserved
              have hserved2 : (!cg.nodes.isEmpty && decide (p ∈ ch.entryPorts)) = false := hserved
              have hne : cg.nodes.isEmpty = false := by
                cases hn : cg.nodes
                · rw [hn] at hhd; simp at hhd
                · rfl
              rw [hne] at hserved2
              simp only [Bool.not_false, Bool.true_and] at hserved2
              have hnm : p ∉ ch.entryPorts := by
                intro hc
                rw [decide_eq_true hc] at hserved2
                exact absurd hserved2 (by simp)
              simp [hnm, hnone]
        have hpm2 : ahas (match chapterDecl css cg.chapterId with
            | some ch => addChapterPorts cg pm ch.entryPorts
            | none => pm) p = false := by
          unfold ahas
          rw [hpm]
          rfl
        rw [ih, hpm2, if_neg (by simp), if_neg (by simp [hh])]

/-- C5: characterization of the port map built by `resolveConnections`.
A port `p` is mapped exactly when some chapter graph (with a non-empty
node list and a chapter declaration listing `p` among its entry ports)
occurs in the input, and it maps to the id of the first generated node
of the FIRST such chapter in processing order: a duplicate declaration
of the same port by a later chapter is skipped without overwriting and
without any report (resolveConnections has no report channel at all). -/
theorem buildPortMap_first_write_wins (css : List ChapterStructure)
    (cgs : List ChapterGraph) (p : String) :
    aget (buildPortMap css cgs) p =
      ((cgs.find? (portServed css p)).bind (fun cg => cg.nodes.head?)).map
        (fun n => n.id) := by
  unfold buildPortMap
  rw [aget_buildPortMapAux css p cgs []]
  rfl

end Resolver

namespace Resolver

/-- Port-map values are ids of nodes of the input chapter graphs. -/
theorem portMap_value_mem (css : List ChapterStructure) (cgs : List ChapterGraph)
    (p v : String) (h : aget (buildPortMap css cgs) p = some v) :
    v ∈ allNodeIds cgs := by
  rw [buildPortMap_first_write_wins] at h
  cases hf : cgs.find? (portServed css p) with
  | none => rw [hf] at h; simp at h
  | some cg =>
    rw [hf] at h
    cases hhd : cg.nodes.head? with
    | none => simp [hhd] at h
    | some n0 =>
      simp only [hhd, Option.some_bind, Option.map_some, Option.some.injEq] at h
      have hid : n0.id = v := by simpa using h
      have hcg : cg ∈ cgs := List.mem_of_find?_eq_some hf
      have hn0 : n0 ∈ cg.nodes := List.mem_of_mem_head? (by rw [hhd]; exact Option.mem_some_iff.mpr rfl)
      have hmem : n0 ∈ allNodes cgs := by
        unfold allNodes
        exact List.mem_flatMap.mpr ⟨cg, hcg, hn0⟩
      unfold allNodeIds
      rw [← hid]
      exact List.mem_map_of_mem _ hmem

/-- Truthy port lookup as the rewrite step sees it: an empty-string
mapped id is falsy in JS and does not count as resolvable. -/
def truthyGet (pm : List (String × String)) (c : String) : Option String :=
  match aget pm c with
  | some r => if r = "" then none else some r
  | none => none

theorem resolveEntry_cases (ids : List String) (pm : List (String × String)) (c : String) :
    resolveEntry ids pm c ∈ ids
    ∨ (∃ r, truthyGet pm c = some r ∧ resolveEntry ids pm c = r)
    ∨ (resolveEntry ids pm c = c ∧ c ∉ ids ∧ truthyGet pm c = none) := by
  unfold resolveEntry truthyGet
  by_cases hmem : c ∈ ids
  · left
    simp [hmem]
  · cases hg : aget pm c with
    | none => right; right; simp [hmem]
    | some r =>
      by_cases hr : r = ""
      · right; right
        simp [hmem, hr]
      · right; left
        exact ⟨r, by simp [hr], by simp [hmem, hr]⟩

theorem truthyGet_value_mem (css : List ChapterStructure) (cgs : List ChapterGraph)
    (c v : String) (h : truthyGet (buildPortMap css cgs) c = some v) :
    v ∈ allNodeIds cgs := by
  unfold truthyGet at h
  cases hg : aget (buildPortMap css cgs) c with
  | none => rw [hg] at h; simp at h
  | some r =>
    rw [hg] at h
    have h2 : (if r = "" then none else some r) = some v := h
    by_cases hr : r = ""
    · rw [if_pos hr] at h2; simp at h2
    · rw [if_neg hr] at h2
      cases h2
      exact portMap_value_mem css cgs c v hg

/-- C6 (amended): every connection or back-connection entry of every
node of the resolved graph is either an id of an input node (and the
final node set has exactly the input ids), or an entry the port map does
not (truthily) resolve, kept in place unchanged for the Validator;
`resolveConnections` drops nothing and produces no report — its result
type has no report channel. -/
theorem resolveConnections_entry_totality (acts : ActStructure)
    (css : List ChapterStructure) (cgs : List ChapterGraph) :
    ∀ n ∈ (resolveConnections acts css cgs).nodes,
      ∀ c, (c ∈ n.connections ∨ c ∈ n.backConnections) →
        c ∈ allNodeIds cgs ∨ truthyGet (buildPortMap css cgs) c = none := by
  intro n hn c hc
  unfold resolveConnections at hn
  simp only [List.mem_map] at hn
  obtain ⟨n1, hn1, rfl⟩ := hn
  obtain ⟨n0, hn0, rfl⟩ := hn1
  -- entries of the injected node: rewritten entries plus possibly one hub id
  have hhub : ∀ hub ∈ (allNodes cgs).map
      (rewriteNode (allNodeIds cgs) (buildPortMap css cgs)) |>.filter isHub,
      hub.id ∈ allNodeIds cgs := by
    intro hub hmem
    have := List.mem_of_mem_filter hmem
    obtain ⟨h0, h0mem, rfl⟩ := List.mem_map.mp this
    unfold rewriteNode
    simp only
    exact List.mem_map_of_mem _ h0mem
  have hrw : ∀ c2, (c2 ∈ (rewriteNode (allNodeIds cgs) (buildPortMap css cgs) n0).connections
      ∨ c2 ∈ (rewriteNode (allNodeIds cgs) (buildPortMap css cgs) n0).backConnections) →
      c2 ∈ allNodeIds cgs ∨ truthyGet (buildPortMap css cgs) c2 = none := by
    intro c2 hc2
    have hmem2 : ∃ c0, c2 = resolveEntry (allNodeIds cgs) (buildPortMap css cgs) c0 := by
      unfold rewriteNode at hc2
      simp only at hc2
      rcases hc2 with hc2 | hc2
      · obtain ⟨c0, _, rfl⟩ := List.mem_map.mp hc2
        exact ⟨c0, rfl⟩
      · obtain ⟨c0, _, rfl⟩ := List.mem_map.mp hc2
        exact ⟨c0, rfl⟩
    obtain ⟨c0, rfl⟩ := hmem2
    rcases resolveEntry_cases (allNodeIds cgs) (buildPortMap css cgs) c0 with h | ⟨r, hr, he⟩ | ⟨he, _, ht⟩
    · exact Or.inl h
    · rw [he]
      exact Or.inl (truthyGet_value_mem css cgs c0 r hr)
    · rw [he]
      exact Or.inr ht
  unfold injectBack at hc
  set nodes1 := (allNodes cgs).map (rewriteNode (allNodeIds cgs) (buildPortMap css cgs)) with hnodes1
  set rw0 := rewriteNode (allNodeIds cgs) (buildPortMap css cgs) n0 with hrw0
  by_cases h1 : rw0.type = NodeType.ending
  · rw [if_pos h1] at hc
    exact hrw c hc
  · rw [if_neg h1] at hc
    by_cases h2 : (nodes1.filter isHub).any (fun h => h.id == rw0.id) = true
    · rw [if_pos h2] at hc
      exact hrw c hc
    · rw [if_neg h2] at hc
      by_cases h3 : rw0.backConnections = []
      · rw [if_pos h3] at hc
        cases hfind : (match (nodes1.filter isHub).find? (fun h => h.locationId == rw0.locationId) with
          | some h => some h
          | none => (nodes1.filter isHub).head?) with
        | none =>
          rw [hfind] at hc
          exact hrw c hc
        | some hub =>
          rw [hfind] at hc
          simp only at hc
          rcases hc with hc | hc
          · exact hrw c (Or.inl hc)
          · rcases List.mem_append.mp hc with hc2 | hc2
            · exact hrw c (Or.inr hc2)
            · have hcid : c = hub.id := List.mem_singleton.mp hc2
              have hhubmem : hub ∈ nodes1.filter isHub := by
                cases hf2 : (nodes1.filter isHub).find? (fun h => h.locationId == rw0.locationId) with
                | some h2 =>
                  rw [hf2] at hfind
                  have hfind2 : some h2 = some hub := hfind
                  cases hfind2
                  exact List.mem_of_find?_eq_some hf2
                | none =>
                  rw [hf2] at hfind
                  have hfind2 : (nodes1.filter isHub).head? = some hub := hfind
                  exact List.mem_of_mem_head? (by rw [hfind2]; exact Option.mem_some_iff.mpr rfl)
              rw [hcid]
              exact Or.inl (hhub hub hhubmem)
      · rw [if_neg h3] at hc
        exact hrw c hc

/-- Chapter graph with one unresolvable connection entry, for the C6
counterexample and witness. -/
def c6Cgs : List ChapterGraph :=
  [{ chapterId := "ch1",
     nodes := [{ id := "n1", type := NodeType.narrative, connections := ["ghost"] }] }]

def c6Graph : StoryGraph :=
  resolveConnections { acts := [] } [] c6Cgs

/-- C6, counterexample: the unresolvable entry "ghost" (not a node id,
not a declared port) is neither dropped nor reported — it remains in the
final graph's connection list verbatim, and `resolveConnections` returns
only the graph, with no report of the dangling reference. -/
theorem resolveConnections_keeps_unresolved :
    c6Graph.nodes.map (fun n => n.connections) = [["ghost"]]
    ∧ "ghost" ∉ c6Graph.nodes.map (fun n => n.id) := by
  refine ⟨by rfl, ?_⟩
  intro h
  simp [c6Graph, c6Cgs, resolveConnections, allNodes, allNodeIds, buildPortMap, rewriteNode,
    injectBack, resolveEntry, isHub, chapterDecl, allChapters] at h

/-- Witness for the C6 amended theorem at the concrete graph: the kept
entry "ghost" of a node of the final graph is a node id or unresolvable
by the port map (here: unresolvable and kept). -/
theorem resolveConnections_entry_totality_witness :
    "ghost" ∈ allNodeIds c6Cgs ∨ truthyGet (buildPortMap [] c6Cgs) "ghost" = none := by
  have hn : ∃ n ∈ c6Graph.nodes, "ghost" ∈ n.connections := by decide
  obtain ⟨n, hmem, hc⟩ := hn
  exact resolveConnections_entry_totality { acts := [] } [] c6Cgs n hmem "ghost" (Or.inl hc)

end Resolver

/-! ## Game data model (game-data-generator.ts types)

Runtime payloads of `value` fields are JSON scalars; numeric literals
are carried as integers here (the validator never computes with them). -/

namespace GameModel

inductive PrimVal where
  | s (v : String)
  | n (v : Int)
  | b (v : Bool)
deriving DecidableEq

structure Condition where
  type : String
  key : String
  value : Option PrimVal := none
deriving DecidableEq

structure Effect where
  type : String
  key : String
  value : Option PrimVal := none
  delta : Option Int := none
deriving DecidableEq

structure Interaction where
  id : String
  type : String
  buttonText : String := ""
  resultText : String := ""
  targetObject : Option String := none
  requiresItem : Option String := none
  conditions : List Condition := []
  effects : List Effect := []
  targetNodeId : Option String := none
deriving DecidableEq

structure StoryNode where
  id : String
  type : NodeType
  title : String := ""
  content : String := ""
  locationId : String := ""
  presentCharacters : List String := []
  availableObjects : List String := []
  interactions : List Interaction := []
  onEnter : List Effect := []
  canonicalPath : Bool := true
  divergenceLevel : Int := 0
  mood : String := ""
  chapterRef : Option String := none
  chapterNumber : Option Int := none
  chapterTitle : Option String := none
deriving DecidableEq

structure Exit where
  direction : String
  targetLocationId : String
  conditions : List Condition := []
  description : String := ""
deriving DecidableEq

structure GameLocation where
  id : String
  name : String
  description : String := ""
  atmosphere : String := ""
  exits : List Exit := []
  objectIds : List String := []
  npcIds : List String := []
deriving DecidableEq

structure GameObject where
  id : String
  name : String
  description : String := ""
  canTake : Bool := false
  states : Option (List String) := none
  initialState : Option String := none
  interactions : List Interaction := []
deriving DecidableEq

structure DialogueTopic where
  id : String
  keyword : String
  response : String
  conditions : List Condition := []
  effects : List Effect := []
deriving DecidableEq

structure GameCharacter where
  id : String
  name : String
  description : String := ""
  dialogue : List DialogueTopic := []
  initialRelation : Int := 0
deriving DecidableEq

structure Item where
  id : String
  name : String
  description : String := ""
  useText : Option String := none
  combinable : Option Bool := none
  combinesWith : Option (List String) := none
deriving DecidableEq

structure VariableDefinition where
  displayName : String
  minVal : Option Int := none
  maxVal : Option Int := none
  showInUI : Bool := false
deriving DecidableEq

structure Meta where
  title : String := ""
  author : String := ""
  bookTitle : String := ""
  bookAuthor : String := ""
  description : String := ""
  version : String := ""
  generatedAt : String := ""
  engineVersion : String := ""
  language : String := ""
deriving DecidableEq

structure InitialState where
  startNodeId : String
  startLocationId : String
  initialInventory : List String := []
  initialFlags : List (String × Bool) := []
  initialVariables : List (String × Int) := []
deriving DecidableEq

structure GameData where
  meta : Meta := {}
  initialState : InitialState
  nodes : List (String × StoryNode)
  locations : List (String × GameLocation) := []
  objects : List (String × GameObject) := []
  characters : List (String × GameCharacter) := []
  items : List (String × Item) := []
  variableDefinitions : List (String × VariableDefinition) := []
deriving DecidableEq

/-! ### Engine feature reference (engine-reference.ts) -/

def INTERACTION_TYPES : List String :=
  ["examine", "take", "use", "use_on", "combine", "talk", "ask", "give", "go", "story"]

def CONDITION_TYPES : List String :=
  ["has_item", "lacks_item", "flag_true", "flag_false",
   "object_state", "object_state_not",
   "visited_node", "not_visited_node", "visited_location",
   "variable_eq", "variable_gte", "variable_lte", "variable_gt", "variable_lt",
   "relation_gte", "relation_lte", "in_location"]

def EFFECT_TYPES : List String :=
  ["add_item", "remove_item", "set_flag", "clear_flag",
   "set_object_state", "set_variable", "change_variable",
   "change_relation", "go_to_node", "set_location"]

end GameModel

/-! ## Validator / repairer (validation.ts)

Report entries are modelled as structured values: one constructor per
`report.*.push` site in the source, carrying the data the source
interpolates into its message string. The source mutates nodes in
place while iterating `Object.entries(nodes)`; the model rebuilds each
node with the same per-interaction updates, threading the evolving
per-run counters (the duplicate-id rename suffix uses the global
interaction counter). -/

namespace GameModel

/-- Fix entries (`report.fixes.push` sites). -/
inductive Fix where
  | dupInteractionId (nodeId oldId newId : String)
  | danglingTarget (nodeId oldTarget fallback : String)
  | orphanLink (orphanId predecessorId : String)
deriving DecidableEq

/-- Warning entries (`report.warnings.push` sites). -/
inductive Warn where
  | noEndingNodes
  | locationNotFound (nodeId locId : String)
  | characterNotFound (nodeId charId : String)
  | objectNotFound (nodeId objId : String)
  | danglingTargetNoEnding (nodeId target : String)
  | condItemNotFound (nodeId interactionId key : String)
  | condObjectNotFound (nodeId interactionId key : String)
  | condNodeNotFound (nodeId interactionId key : String)
  | condLocationNotFound (nodeId interactionId key : String)
  | condCharacterNotFound (nodeId interactionId key : String)
  | condVariableNotDefined (nodeId interactionId key : String)
  | effItemNotFound (nodeId interactionId key : String)
  | effObjectNotFound (nodeId interactionId key : String)
  | effNodeNotFound (nodeId interactionId key : String)
  | effLocationNotFound (nodeId interactionId key : String)
  | effCharacterNotFound (nodeId interactionId key : String)
  | noInteractions (nodeId : String) (t : NodeType)
  | orphanCount (count : Nat)
  | lowAvgInteractions (total nonEnding : Nat)
  | lowTotalInteractions (total : Nat)
  | missingInteractionTypesW (types : List String)
  | missingConditionTypesW (types : List String)
  | missingEffectTypesW (types : List String)
deriving DecidableEq

/-- Error entries (`report.errors.push` sites). -/
inductive VErr where
  | startNodeIdMissing (id : String)
  | startLocationIdMissing (id : String)
deriving DecidableEq

/-- Report statistics; `avgInteractionsPerNode` is a JS float in the
source and an exact rational here. -/
structure VStats where
  totalNodes : Nat := 0
  totalInteractions : Nat := 0
  avgInteractionsPerNode : ℚ := 0
  endingNodes : Nat := 0
  choiceNodes : Nat := 0
  interactionTypeCounts : List (String × Nat) := []
  conditionTypeCounts : List (String × Nat) := []
  effectTypeCounts : List (String × Nat) := []
  missingInteractionTypes : List String := []
  missingConditionTypes : List String := []
  missingEffectTypes : List String := []
deriving DecidableEq

structure VReport where
  errors : List VErr
  warnings : List Warn
  fixes : List Fix
  stats : VStats
deriving DecidableEq

/-- Reference sets computed at the top of `validateAndFix` (JS `Set`s of
object keys; sizes are set sizes, so keys are deduplicated). -/
structure Ctx where
  nodeIds : List String
  locationIds : List String
  characterIds : List String
  itemIds : List String
  objectIds : List String
  variableIds : List String
  endingNodeIds : List String
deriving DecidableEq

def mkCtx (gd : GameData) : Ctx :=
  { nodeIds := (gd.nodes.map Prod.fst).dedup
    locationIds := (gd.locations.map Prod.fst).dedup
    characterIds := (gd.characters.map Prod.fst).dedup
    itemIds := (gd.items.map Prod.fst).dedup
    objectIds := (gd.objects.map Prod.fst).dedup
    variableIds := (gd.variableDefinitions.map Prod.fst).dedup
    endingNodeIds := (gd.nodes.filter (fun p => p.2.type = NodeType.ending)).map Prod.fst }

/-- Per-run accumulators threaded through the node loop. -/
structure LoopSt where
  totalInteractions : Nat := 0
  iCounts : List (String × Nat) := []
  cCounts : List (String × Nat) := []
  eCounts : List (String × Nat) := []
  warnings : List Warn := []
  fixes : List Fix := []
  nonEndingNodes : Nat := 0
  endingCount : Nat := 0
  choiceCount : Nat := 0
deriving DecidableEq

/-- Counter bump `m[k] = (m[k] ?? 0) + 1`. -/
def bump (m : List (String × Nat)) (k : String) : List (String × Nat) :=
  aset m k ((aget m k).getD 0 + 1)

/-- Duplicate-interaction-id stage: a repeated id within the node gets
the suffix `_<running interaction count>`. -/
def dupStage (nodeId : String) (seen : List String) (total : Nat) (i : Interaction) :
    Interaction × List Fix :=
  if i.id ∈ seen then
    ({ i with id := i.id ++ "_" ++ toString total },
     [Fix.dupInteractionId nodeId i.id (i.id ++ "_" ++ toString total)])
  else (i, [])

/-- Dangling-target stage: a (truthy) targetNodeId that is not a node id
is rewritten to the first ending node when one exists, else only warned
about. -/
def targetStage (ctx : Ctx) (nodeId : String) (i : Interaction) :
    Interaction × List Fix × List Warn :=
  match i.targetNodeId with
  | some t =>
    if t ≠ "" ∧ t ∉ ctx.nodeIds then
      match ctx.endingNodeIds with
      | fb :: _ => ({ i with targetNodeId := some fb }, [Fix.danglingTarget nodeId t fb], [])
      | [] => (i, [], [Warn.danglingTargetNoEnding nodeId t])
    else (i, [], [])
  | none => (i, [], [])

/-- Reference warnings for one condition (the six checks of the source's
condition loop, in order; several can fire for one condition). -/
def condWarnings (ctx : Ctx) (nodeId iid : String) (c : Condition) : List Warn :=
  (if (c.type = "has_item" ∨ c.type = "lacks_item") ∧ c.key ∉ ctx.itemIds
   then [Warn.condItemNotFound nodeId iid c.key] else [])
  ++ (if (c.type = "object_state" ∨ c.type = "object_state_not") ∧ c.key ∉ ctx.objectIds
      then [Warn.condObjectNotFound nodeId iid c.key] else [])
  ++ (if (c.type = "visited_node" ∨ c.type = "not_visited_node") ∧ c.key ∉ ctx.nodeIds
      then [Warn.condNodeNotFound nodeId iid c.key] else [])
  ++ (if (c.type = "visited_location" ∨ c.type = "in_location") ∧ c.key ∉ ctx.locationIds
      then [Warn.condLocationNotFound nodeId iid c.key] else [])
  ++ (if (c.type = "relation_gte" ∨ c.type = "relation_lte") ∧ c.key ∉ ctx.characterIds
      then [Warn.condCharacterNotFound nodeId iid c.key] else [])
  ++ (if c.type.startsWith "variable_" ∧ c.key ∉ ctx.variableIds
      then [Warn.condVariableNotDefined nodeId iid c.key] else [])

/-- Reference warnings for one effect (the five checks of the source's
effect loop). -/
def effWarnings (ctx : Ctx) (nodeId iid : String) (e : Effect) : List Warn :=
  (if (e.type = "add_item" ∨ e.type = "remove_item") ∧ e.key ∉ ctx.itemIds
   then [Warn.effItemNotFound nodeId iid e.key] else [])
  ++ (if e.type = "set_object_state" ∧ e.key ∉ ctx.objectIds
      then [Warn.effObjectNotFound nodeId iid e.key] else [])
  ++ (if e.type = "go_to_node" ∧ e.key ∉ ctx.nodeIds
      then [Warn.effNodeNotFound nodeId iid e.key] else [])
  ++ (if e.type = "set_location" ∧ e.key ∉ ctx.locationIds
      then [Warn.effLocationNotFound nodeId iid e.key] else [])
  ++ (if e.type = "change_relation" ∧ e.key ∉ ctx.characterIds
      then [Warn.effCharacterNotFound nodeId iid e.key] else [])

/-- Interaction loop of one node (`for (const interaction of
node.interactions ?? [])`), as direct recursion: returns the rewritten
interaction list and the updated accumulators. -/
def processIxs (ctx : Ctx) (nodeId : String) :
    LoopSt → List String → List Interaction → List Interaction × LoopSt
  | st, _, [] => ([], st)
  | st, seen, i :: rest =>
    let total := st.totalInteractions + 1
    let d := dupStage nodeId seen total i
    let t := targetStage ctx nodeId d.1
    let i2 := t.1
    let cres := i2.conditions.foldl
      (fun acc c => (bump acc.1 c.type, acc.2 ++ condWarnings ctx nodeId i2.id c))
      (st.cCounts, ([] : List Warn))
    let eres := i2.effects.foldl
      (fun acc e => (bump acc.1 e.type, acc.2 ++ effWarnings ctx nodeId i2.id e))
      (st.eCounts, ([] : List Warn))
    let st1 : LoopSt :=
      { st with
        totalInteractions := total
        fixes := st.fixes ++ d.2 ++ t.2.1
        warnings := st.warnings ++ t.2.2 ++ cres.2 ++ eres.2
        iCounts := bump st.iCounts i2.type
        cCounts := cres.1
        eCounts := eres.1 }
    let r := processIxs ctx nodeId st1 (insertSet seen d.1.id) rest
    (i2 :: r.1, r.2)

/-- Node-level checks preceding the interaction loop: location /
character / object reference warnings and the node-type counters, in
source order. -/
def nodePreSt (ctx : Ctx) (st : LoopSt) (nodeId : String) (n : StoryNode) : LoopSt :=
  let w0 := (if n.locationId ≠ "" ∧ n.locationId ∉ ctx.locationIds
      then [Warn.locationNotFound nodeId n.locationId] else [])
    ++ n.presentCharacters.flatMap
        (fun c => if c ∉ ctx.characterIds then [Warn.characterNotFound nodeId c] else [])
    ++ n.availableObjects.flatMap
        (fun o => if o ∉ ctx.objectIds then [Warn.objectNotFound nodeId o] else [])
  if n.type = NodeType.ending then
    { st with warnings := st.warnings ++ w0, endingCount := st.endingCount + 1 }
  else
    { st with
      warnings := st.warnings ++ w0
      nonEndingNodes := st.nonEndingNodes + 1
      choiceCount := if n.type = NodeType.choice then st.choiceCount + 1 else st.choiceCount }

/-- One `Object.entries` entry: the pre-checks, the interaction loop,
the empty-interactions warning and the onEnter effect counting, in
source order. -/
def processNode (ctx : Ctx) (st : LoopSt) (nodeId : String) (n : StoryNode) :
    StoryNode × LoopSt :=
  let r := processIxs ctx nodeId (nodePreSt ctx st nodeId n) [] n.interactions
  let stB : LoopSt :=
    { r.2 with warnings := r.2.warnings ++
        (if n.type ≠ NodeType.ending ∧ r.1 = [] then [Warn.noInteractions nodeId n.type] else []) }
  let stC : LoopSt := { stB with eCounts := n.onEnter.foldl (fun m e => bump m e.type) stB.eCounts }
  ({ n with interactions := r.1 }, stC)

/-- Main node loop (`for (const [nodeId, node] of Object.entries(nodes))`). -/
def mainPass (ctx : Ctx) : LoopSt → List (String × StoryNode) →
    List (String × StoryNode) × LoopSt
  | st, [] => ([], st)
  | st, (nid, n) :: rest =>
    let r := processNode ctx st nid n
    let rr := mainPass ctx r.2 rest
    ((nid, r.1) :: rr.1, rr.2)

end GameModel

namespace GameModel

/-- Incoming-link set of `reconnectOrphanNodes` (`hasIncoming`): targets
of interactions whose (truthy) targetNodeId names an existing node, plus
keys of `go_to_node` onEnter effects naming an existing node. Note the
truthiness guard applies only to the interaction path: an onEnter
`go_to_node` with an empty key still counts when a node keyed "" exists. -/
def computeHasIncoming (nodes : List (String × StoryNode)) : List String :=
  nodes.foldl
    (fun acc p =>
      let acc1 := p.2.interactions.foldl
        (fun a i =>
          match i.targetNodeId with
          | some t => if t ≠ "" ∧ (aget nodes t).isSome then insertSet a t else a
          | none => a)
        acc
      p.2.onEnter.foldl
        (fun a e => if e.type = "go_to_node" ∧ (aget nodes e.key).isSome then insertSet a e.key else a)
        acc1)
    []

/-- Outgoing `go`-interaction count of a candidate predecessor. -/
def goCount (n : StoryNode) : Nat :=
  (n.interactions.filter (fun i => i.type = "go")).length

/-- Deduplicated target set of a node's interactions (a JS `Set` built
from the truthy targetNodeId values). -/
def targetsOf (n : StoryNode) : List String :=
  ((n.interactions.filterMap (fun i => i.targetNodeId)).filter (fun t => t ≠ "")).dedup

/-- Candidate score of the orphan-reconnection heuristic: +10 same
chapter number (JS `===`, so two absent chapter numbers match), +5 same
location, +3 per shared successor, +2 already reachable (start node or
in the incoming set). -/
def candScore (startNodeId : String) (hasIncoming : List String) (orphan : StoryNode)
    (cid : String) (cand : StoryNode) : Int :=
  (if cand.chapterNumber = orphan.chapterNumber then 10 else 0)
  + (if cand.locationId = orphan.locationId then 5 else 0)
  + 3 * ((targetsOf orphan).filter (fun t => t ∈ targetsOf cand)).length
  + (if cid = startNodeId ∨ cid ∈ hasIncoming then 2 else 0)

/-- Candidate scan for one orphan: first strict maximum over the
non-ending entries, skipping the orphan itself and candidates with six
or more `go` interactions. The candidate node is looked up live in the
evolving node map (the JS entries hold live references). -/
def scanLoop (nodes : List (String × StoryNode)) (hasIncoming : List String)
    (startNodeId orphanId : String) (orphan : StoryNode) :
    Option String × Int → List String → Option String × Int
  | best, [] => best
  | best, cid :: rest =>
    if cid = orphanId then scanLoop nodes hasIncoming startNodeId orphanId orphan best rest
    else
      match aget nodes cid with
      | none => scanLoop nodes hasIncoming startNodeId orphanId orphan best rest
      | some cand =>
        if goCount cand ≥ 6 then scanLoop nodes hasIncoming startNodeId orphanId orphan best rest
        else
          let score := candScore startNodeId hasIncoming orphan cid cand
          if score > best.2 then
            scanLoop nodes hasIncoming startNodeId orphanId orphan (some cid, score) rest
          else scanLoop nodes hasIncoming startNodeId orphanId orphan best rest

def scanCandidates (nodes : List (String × StoryNode)) (entriesIds : List String)
    (hasIncoming : List String) (startNodeId orphanId : String) (orphan : StoryNode) :
    Option String :=
  (scanLoop nodes hasIncoming startNodeId orphanId orphan (none, -1) entriesIds).1

/-- Synthesized traversal interaction appended to the chosen
predecessor. -/
def orphanFixInteraction (locations : List (String × GameLocation)) (orphanId : String)
    (orphan : StoryNode) : Interaction :=
  let orphanName :=
    match aget locations orphan.locationId with
    | some loc => loc.name
    | none => orphan.title
  { id := "fix_orphan_go_" ++ orphanId
    type := "go"
    buttonText := "Go to " ++ orphanName
    resultText := "You make your way to " ++ jsToLowerCase orphanName ++ "."
    conditions := []
    effects := [{ type := "set_location", key := orphan.locationId }]
    targetNodeId := some orphanId }

/-- State of the reconnection loop. -/
structure ReconSt where
  nodes : List (String × StoryNode)
  hasIncoming : List String
  warnings : List Warn
  fixes : List Fix
deriving DecidableEq

/-- One orphan's treatment: find the best predecessor and append the
synthesized interaction to it; a missing orphan or an empty candidate
scan leaves the state unchanged (`continue`). -/
def reconnectStep (locations : List (String × GameLocation)) (startNodeId : String)
    (entriesIds : List String) (st : ReconSt) (orphanId : String) : ReconSt :=
  match aget st.nodes orphanId with
  | none => st
  | some orphan =>
    match scanCandidates st.nodes entriesIds st.hasIncoming startNodeId orphanId orphan with
    | none => st
    | some best =>
      -- `if (!bestPredecessor) continue;` — a JS-falsy (empty-string)
      -- winner id is skipped like a failed scan
      if best = "" then st
      else
        match aget st.nodes best with
        | none => st
        | some pred =>
          { nodes := aset st.nodes best
              { pred with interactions :=
                  pred.interactions ++ [orphanFixInteraction locations orphanId orphan] }
            hasIncoming := insertSet st.hasIncoming orphanId
            warnings := st.warnings
            fixes := st.fixes ++ [Fix.orphanLink orphanId best] }

def reconLoop (locations : List (String × GameLocation)) (startNodeId : String)
    (entriesIds : List String) : ReconSt → List String → ReconSt
  | st, [] => st
  | st, o :: os =>
    reconLoop locations startNodeId entriesIds
      (reconnectStep locations startNodeId entriesIds st o) os

/-- Orphan detection and reconnection (`reconnectOrphanNodes`): nodes
with no incoming link (other than the start node) get a synthesized
incoming `go` interaction from the best-scoring non-ending predecessor. -/
def reconnectOrphanNodes (locations : List (String × GameLocation)) (startNodeId : String)
    (nodes : List (String × StoryNode)) :
    List (String × StoryNode) × List Warn × List Fix :=
  let hasIncoming := computeHasIncoming nodes
  let orphans := (nodes.map Prod.fst).filter (fun nid => nid ≠ startNodeId ∧ nid ∉ hasIncoming)
  if orphans = [] then (nodes, [], [])
  else
    let entriesIds := (nodes.filter (fun p => p.2.type ≠ NodeType.ending)).map Prod.fst
    let st := reconLoop locations startNodeId entriesIds
      { nodes := nodes, hasIncoming := hasIncoming
        warnings := [Warn.orphanCount orphans.length], fixes := [] } orphans
    (st.nodes, st.warnings, st.fixes)

/-- Stats and coverage phase after the loops (`report.stats` fields,
missing-type coverage and the quality warnings). -/
def statsAndQuality (ctx : Ctx) (st : LoopSt) : VStats × List Warn :=
  let avg : ℚ := if st.nonEndingNodes > 0
    then (st.totalInteractions : ℚ) / (st.nonEndingNodes : ℚ) else 0
  let missingI := INTERACTION_TYPES.filter (fun t => (aget st.iCounts t).getD 0 = 0)
  let missingC := CONDITION_TYPES.filter (fun t => (aget st.cCounts t).getD 0 = 0)
  let missingE := EFFECT_TYPES.filter (fun t => (aget st.eCounts t).getD 0 = 0)
  let stats : VStats :=
    { totalNodes := ctx.nodeIds.length
      totalInteractions := st.totalInteractions
      avgInteractionsPerNode := avg
      endingNodes := st.endingCount
      choiceNodes := st.choiceCount
      interactionTypeCounts := st.iCounts
      conditionTypeCounts := st.cCounts
      effectTypeCounts := st.eCounts
      missingInteractionTypes := missingI
      missingConditionTypes := missingC
      missingEffectTypes := missingE }
  let quality :=
    (if avg < 4 then [Warn.lowAvgInteractions st.totalInteractions st.nonEndingNodes] else [])
    ++ (if st.totalInteractions < 180 then [Warn.lowTotalInteractions st.totalInteractions] else [])
    ++ (if missingI ≠ [] then [Warn.missingInteractionTypesW missingI] else [])
    ++ (if missingC ≠ [] then [Warn.missingConditionTypesW missingC] else [])
    ++ (if missingE ≠ [] then [Warn.missingEffectTypesW missingE] else [])
  (stats, quality)

/-- Validate game data and apply fixes for common issues
(`validateAndFix`): startNode/startLocation errors and the
no-ending-node warning, then the per-node pass, then orphan
reconnection, then stats, coverage and quality warnings. -/
def validateAndFix (gd : GameData) : GameData × VReport :=
  let ctx := mkCtx gd
  let errors :=
    (if gd.initialState.startNodeId ∉ ctx.nodeIds
     then [VErr.startNodeIdMissing gd.initialState.startNodeId] else [])
    ++ (if gd.initialState.startLocationId ∉ ctx.locationIds
        then [VErr.startLocationIdMissing gd.initialState.startLocationId] else [])
  let w0 := if ctx.endingNodeIds = [] then [Warn.noEndingNodes] else []
  let m := mainPass ctx {} gd.nodes
  let rec0 := reconnectOrphanNodes gd.locations gd.initialState.startNodeId m.1
  let sq := statsAndQuality ctx m.2
  ({ gd with nodes := rec0.1 },
   { errors := errors
     warnings := w0 ++ m.2.warnings ++ rec0.2.1 ++ sq.2
     fixes := m.2.fixes ++ rec0.2.2
     stats := sq.1 })

end GameModel

/-! ## Validator lemmas -/

namespace GameModel

/-- Incoming traversal edge as the reachability claim reads it: some
node's interaction targets `v`, or an onEnter `go_to_node` effect names
`v`. (The source's own `hasIncoming` computation additionally requires
the target to be truthy and present; `mem_computeHasIncoming` below
characterizes that set and implies this one for present targets.) -/
def hasIncomingEdge (nodes : List (String × StoryNode)) (v : String) : Bool :=
  nodes.any (fun p =>
    p.2.interactions.any (fun i => decide (i.targetNodeId = some v))
    || p.2.onEnter.any (fun e => decide (e.type = "go_to_node" ∧ e.key = v)))

/-- Some node's interaction targets `v` (used to transport reconnection
fixes into the incoming set). -/
def TargetedBy (nodes : List (String × StoryNode)) (v : String) : Prop :=
  ∃ p ∈ nodes, ∃ i ∈ p.2.interactions, i.targetNodeId = some v

/-- Node extension: the same node with some interactions appended (what
a reconnection fix does to a predecessor). -/
def NodeExt (a b : StoryNode) : Prop :=
  ∃ extra : List Interaction, b = { a with interactions := a.interactions ++ extra }

/-- Map extension: same keys in the same order, each node extended. -/
def MapExt (n1 n2 : List (String × StoryNode)) : Prop :=
  List.Forall₂ (fun p q => q.1 = p.1 ∧ NodeExt p.2 q.2) n1 n2

theorem nodeExt_refl (a : StoryNode) : NodeExt a a :=
  ⟨[], by simp⟩

theorem nodeExt_trans {a b c : StoryNode} (h1 : NodeExt a b) (h2 : NodeExt b c) :
    NodeExt a c := by
  obtain ⟨e1, rfl⟩ := h1
  obtain ⟨e2, rfl⟩ := h2
  exact ⟨e1 ++ e2, by simp⟩

theorem mapExt_refl (n : List (String × StoryNode)) : MapExt n n := by
  induction n with
  | nil => exact List.Forall₂.nil
  | cons p t ih => exact List.Forall₂.cons ⟨Eq.refl p.1, nodeExt_refl p.2⟩ ih

theorem mapExt_trans {n1 n2 n3 : List (String × StoryNode)}
    (h1 : MapExt n1 n2) (h2 : MapExt n2 n3) : MapExt n1 n3 := by
  induction h1 generalizing n3 with
  | nil => cases h2; exact List.Forall₂.nil
  | cons hpq h1t ih =>
    cases h2 with
    | cons hqr h2t =>
      exact List.Forall₂.cons ⟨hqr.1.trans hpq.1, nodeExt_trans hpq.2 hqr.2⟩ (ih h2t)

theorem NodeExt.type_eq {a b : StoryNode} (h : NodeExt a b) : b.type = a.type := by
  obtain ⟨e, rfl⟩ := h; rfl

theorem NodeExt.onEnter_eq {a b : StoryNode} (h : NodeExt a b) : b.onEnter = a.onEnter := by
  obtain ⟨e, rfl⟩ := h; rfl

theorem NodeExt.interactions_append {a b : StoryNode} (h : NodeExt a b) :
    ∃ extra, b.interactions = a.interactions ++ extra := by
  obtain ⟨e, rfl⟩ := h; exact ⟨e, rfl⟩

theorem NodeExt.goCount_le {a b : StoryNode} (h : NodeExt a b) : goCount a ≤ goCount b := by
  obtain ⟨e, rfl⟩ := h
  unfold goCount
  simp only [List.filter_append, List.length_append]
  omega

theorem MapExt.keys_eq {n1 n2 : List (String × StoryNode)} (h : MapExt n1 n2) :
    n2.map Prod.fst = n1.map Prod.fst := by
  induction h with
  | nil => rfl
  | cons hpq ht ih => simp [ih, hpq.1]

theorem MapExt.aget_fwd {n1 n2 : List (String × StoryNode)} (h : MapExt n1 n2)
    (k : String) {v : StoryNode} (hv : aget n1 k = some v) :
    ∃ v2, aget n2 k = some v2 ∧ NodeExt v v2 := by
  induction h with
  | nil => simp [aget] at hv
  | cons hpq ht ih =>
    rename_i p q t1 t2
    by_cases hk : p.1 = k
    · rw [aget_cons] at hv
      rw [if_pos hk] at hv
      cases hv
      refine ⟨q.2, ?_, hpq.2⟩
      obtain ⟨q1, q2⟩ := q
      rw [aget_cons]
      have hq1k : q1 = k := by
        have hq1 : q1 = p.1 := hpq.1
        rw [hq1]
        exact hk
      rw [if_pos hq1k]
    · rw [aget_cons, if_neg hk] at hv
      obtain ⟨v2, hv2, hext⟩ := ih hv
      refine ⟨v2, ?_, hext⟩
      obtain ⟨q1, q2⟩ := q
      rw [aget_cons]
      have hq1 : q1 = p.1 := hpq.1
      rw [if_neg (by rw [hq1]; exact hk)]
      exact hv2

theorem MapExt.aget_bwd {n1 n2 : List (String × StoryNode)} (h : MapExt n1 n2)
    (k : String) {v2 : StoryNode} (hv : aget n2 k = some v2) :
    ∃ v, aget n1 k = some v ∧ NodeExt v v2 := by
  induction h with
  | nil => simp [aget] at hv
  | cons hpq ht ih =>
    rename_i p q t1 t2
    obtain ⟨q1, q2⟩ := q
    have hq1 : q1 = p.1 := hpq.1
    by_cases hk : p.1 = k
    · rw [aget_cons, if_pos (by rw [hq1]; exact hk)] at hv
      cases hv
      refine ⟨p.2, ?_, hpq.2⟩
      rw [aget_cons, if_pos hk]
    · rw [aget_cons, if_neg (by rw [hq1]; exact hk)] at hv
      obtain ⟨v, hv1, hext⟩ := ih hv
      exact ⟨v, by rw [aget_cons, if_neg hk]; exact hv1, hext⟩

theorem MapExt.aget_none {n1 n2 : List (String × StoryNode)} (h : MapExt n1 n2)
    (k : String) (hv : aget n1 k = none) : aget n2 k = none := by
  cases hg : aget n2 k with
  | none => rfl
  | some v2 =>
    obtain ⟨v, hv1, _⟩ := h.aget_bwd k hg
    rw [hv1] at hv
    cases hv

end GameModel

namespace GameModel

/-- Membership transport along a map extension. -/
theorem mapExt_mem {n1 n2 : List (String × StoryNode)} (h : MapExt n1 n2)
    {p : String × StoryNode} (hp : p ∈ n1) :
    ∃ q ∈ n2, q.1 = p.1 ∧ NodeExt p.2 q.2 := by
  induction h with
  | nil => cases hp
  | cons hpq ht ih =>
    rcases List.mem_cons.mp hp with rfl | hp2
    · exact ⟨_, List.mem_cons_self _ _, hpq.1, hpq.2⟩
    · obtain ⟨q, hq, hrel⟩ := ih hp2
      exact ⟨q, List.mem_cons_of_mem _ hq, hrel⟩

/-- Inner interaction fold of `computeHasIncoming`. -/
theorem mem_ixFold (nodes : List (String × StoryNode)) (is : List Interaction)
    (acc : List String) (x : String) :
    (x ∈ is.foldl
        (fun a i =>
          match i.targetNodeId with
          | some t => if t ≠ "" ∧ (aget nodes t).isSome then insertSet a t else a
          | none => a) acc)
    ↔ x ∈ acc ∨ ∃ i ∈ is, i.targetNodeId = some x ∧ x ≠ "" ∧ (aget nodes x).isSome := by
  induction is generalizing acc with
  | nil => simp
  | cons i rest ih =>
    simp only [List.foldl_cons]
    cases hti : i.targetNodeId with
    | none =>
      rw [ih]
      constructor
      · rintro (h | h)
        · exact Or.inl h
        · exact Or.inr (by
            obtain ⟨j, hj, hrest⟩ := h
            exact ⟨j, List.mem_cons_of_mem _ hj, hrest⟩)
      · rintro (h | ⟨j, hj, hrest⟩)
        · exact Or.inl h
        · rcases List.mem_cons.mp hj with rfl | hj2
          · rw [hti] at hrest
            exact absurd hrest.1 (by simp)
          · exact Or.inr ⟨j, hj2, hrest⟩
    | some t =>
      dsimp only
      by_cases hc : t ≠ "" ∧ (aget nodes t).isSome
      · rw [if_pos hc, ih]
        constructor
        · rintro (h | h)
          · rcases (mem_insertSet acc t x).mp h with h2 | rfl
            · exact Or.inl h2
            · exact Or.inr ⟨i, List.mem_cons_self _ _, by rw [hti], hc.1, hc.2⟩
          · obtain ⟨j, hj, hrest⟩ := h
            exact Or.inr ⟨j, List.mem_cons_of_mem _ hj, hrest⟩
        · rintro (h | ⟨j, hj, hrest⟩)
          · exact Or.inl ((mem_insertSet acc t x).mpr (Or.inl h))
          · rcases List.mem_cons.mp hj with rfl | hj2
            · rw [hti] at hrest
              have hx : t = x := by
                have := hrest.1
                injection this
              exact Or.inl ((mem_insertSet acc t x).mpr (Or.inr hx.symm))
            · exact Or.inr ⟨j, hj2, hrest⟩
      · rw [if_neg hc, ih]
        constructor
        · rintro (h | ⟨j, hj, hrest⟩)
          · exact Or.inl h
          · exact Or.inr ⟨j, List.mem_cons_of_mem _ hj, hrest⟩
        · rintro (h | ⟨j, hj, hrest⟩)
          · exact Or.inl h
          · rcases List.mem_cons.mp hj with rfl | hj2
            · rw [hti] at hrest
              obtain ⟨heq, hne, hsome⟩ := hrest
              have hx : t = x := by injection heq
              subst hx
              exact absurd ⟨hne, hsome⟩ hc
            · exact Or.inr ⟨j, hj2, hrest⟩

/-- Inner onEnter fold of `computeHasIncoming`. -/
theorem mem_effFold (nodes : List (String × StoryNode)) (es : List Effect)
    (acc : List String) (x : String) :
    (x ∈ es.foldl
        (fun a e => if e.type = "go_to_node" ∧ (aget nodes e.key).isSome
          then insertSet a e.key else a) acc)
    ↔ x ∈ acc ∨ ∃ e ∈ es, e.type = "go_to_node" ∧ e.key = x ∧ (aget nodes x).isSome := by
  induction es generalizing acc with
  | nil => simp
  | cons e rest ih =>
    simp only [List.foldl_cons]
    by_cases hc : e.type = "go_to_node" ∧ (aget nodes e.key).isSome
    · rw [if_pos hc, ih]
      constructor
      · rintro (h | ⟨j, hj, hrest⟩)
        · rcases (mem_insertSet acc e.key x).mp h with h2 | rfl
          · exact Or.inl h2
          · exact Or.inr ⟨e, List.mem_cons_self _ _, hc.1, rfl, hc.2⟩
        · exact Or.inr ⟨j, List.mem_cons_of_mem _ hj, hrest⟩
      · rintro (h | ⟨j, hj, hrest⟩)
        · exact Or.inl ((mem_insertSet acc e.key x).mpr (Or.inl h))
        · rcases List.mem_cons.mp hj with rfl | hj2
          · exact Or.inl ((mem_insertSet acc j.key x).mpr (Or.inr hrest.2.1.symm))
          · exact Or.inr ⟨j, hj2, hrest⟩
    · rw [if_neg hc, ih]
      constructor
      · rintro (h | ⟨j, hj, hrest⟩)
        · exact Or.inl h
        · exact Or.inr ⟨j, List.mem_cons_of_mem _ hj, hrest⟩
      · rintro (h | ⟨j, hj, hrest⟩)
        · exact Or.inl h
        · rcases List.mem_cons.mp hj with rfl | hj2
          · obtain ⟨h1, h2, h3⟩ := hrest
            subst h2
            exact absurd ⟨h1, h3⟩ hc
          · exact Or.inr ⟨j, hj2, hrest⟩

/-- Characterization of the source's incoming-link set. -/
theorem mem_computeHasIncoming_aux (nodes : List (String × StoryNode)) (x : String) :
    ∀ (l : List (String × StoryNode)) (acc : List String),
      (x ∈ l.foldl
        (fun acc p =>
          let acc1 := p.2.interactions.foldl
            (fun a i =>
              match i.targetNodeId with
              | some t => if t ≠ "" ∧ (aget nodes t).isSome then insertSet a t else a
              | none => a)
            acc
          p.2.onEnter.foldl
            (fun a e => if e.type = "go_to_node" ∧ (aget nodes e.key).isSome
              then insertSet a e.key else a)
            acc1) acc)
      ↔ x ∈ acc
        ∨ ∃ p ∈ l, (∃ i ∈ p.2.interactions, i.targetNodeId = some x ∧ x ≠ "" ∧ (aget nodes x).isSome)
            ∨ (∃ e ∈ p.2.onEnter, e.type = "go_to_node" ∧ e.key = x ∧ (aget nodes x).isSome) := by
  intro l
  induction l with
  | nil => simp
  | cons p rest ih =>
    intro acc
    simp only [List.foldl_cons]
    rw [ih, mem_effFold, mem_ixFold]
    constructor
    · rintro (((h | h) | h) | h)
      · exact Or.inl h
      · exact Or.inr ⟨p, List.mem_cons_self _ _, Or.inl h⟩
      · exact Or.inr ⟨p, List.mem_cons_self _ _, Or.inr h⟩
      · obtain ⟨q, hq, hcase⟩ := h
        exact Or.inr ⟨q, List.mem_cons_of_mem _ hq, hcase⟩
    · rintro (h | ⟨q, hq, hcase⟩)
      · exact Or.inl (Or.inl (Or.inl h))
      · rcases List.mem_cons.mp hq with rfl | hq2
        · rcases hcase with h | h
          · exact Or.inl (Or.inl (Or.inr h))
          · exact Or.inl (Or.inr h)
        · exact Or.inr ⟨q, hq2, hcase⟩

/-- Membership in `computeHasIncoming`. -/
theorem mem_computeHasIncoming (nodes : List (String × StoryNode)) (x : String) :
    x ∈ computeHasIncoming nodes
    ↔ ∃ p ∈ nodes,
        (∃ i ∈ p.2.interactions, i.targetNodeId = some x ∧ x ≠ "" ∧ (aget nodes x).isSome)
        ∨ (∃ e ∈ p.2.onEnter, e.type = "go_to_node" ∧ e.key = x ∧ (aget nodes x).isSome) := by
  unfold computeHasIncoming
  rw [mem_computeHasIncoming_aux nodes x nodes []]
  simp

end GameModel

namespace GameModel

theorem candScore_nonneg (startNodeId : String) (hasIncoming : List String)
    (orphan : StoryNode) (cid : String) (cand : StoryNode) :
    0 ≤ candScore startNodeId hasIncoming orphan cid cand := by
  unfold candScore
  have h3 : (0 : Int) ≤ 3 * ((targetsOf orphan).filter (fun t => t ∈ targetsOf cand)).length := by
    positivity
  split <;> split <;> split <;> omega

theorem scanLoop_isSome (nodes : List (String × StoryNode)) (hi : List String)
    (start oid : String) (orphan : StoryNode) :
    ∀ (l : List String) (best : Option String × Int), best.1.isSome →
      (scanLoop nodes hi start oid orphan best l).1.isSome := by
  intro l
  induction l with
  | nil => intro best h; exact h
  | cons cid rest ih =>
    intro best h
    unfold scanLoop
    by_cases h1 : cid = oid
    · rw [if_pos h1]; exact ih best h
    · rw [if_neg h1]
      cases hg : aget nodes cid with
      | none => exact ih best h
      | some cand =>
        dsimp only
        by_cases h2 : goCount cand ≥ 6
        · rw [if_pos h2]; exact ih best h
        · rw [if_neg h2]
          by_cases h3 : candScore start hi orphan cid cand > best.2
          · rw [if_pos h3]; exact ih _ (by simp)
          · rw [if_neg h3]; exact ih best h

theorem scanLoop_none_inv (nodes : List (String × StoryNode)) (hi : List String)
    (start oid : String) (orphan : StoryNode) :
    ∀ (l : List String),
      (scanLoop nodes hi start oid orphan (none, -1) l).1 = none →
      ∀ cid ∈ l, cid = oid ∨ aget nodes cid = none
        ∨ ∃ cand, aget nodes cid = some cand ∧ 6 ≤ goCount cand := by
  intro l
  induction l with
  | nil => intro _ cid hc; cases hc
  | cons c rest ih =>
    intro hres cid hc
    unfold scanLoop at hres
    by_cases h1 : c = oid
    · rw [if_pos h1] at hres
      rcases List.mem_cons.mp hc with rfl | hc2
      · exact Or.inl h1
      · exact ih hres cid hc2
    · rw [if_neg h1] at hres
      cases hg : aget nodes c with
      | none =>
        rw [hg] at hres
        rcases List.mem_cons.mp hc with rfl | hc2
        · exact Or.inr (Or.inl hg)
        · exact ih hres cid hc2
      | some cand =>
        rw [hg] at hres
        dsimp only at hres
        by_cases h2 : goCount cand ≥ 6
        · rw [if_pos h2] at hres
          rcases List.mem_cons.mp hc with rfl | hc2
          · exact Or.inr (Or.inr ⟨cand, hg, h2⟩)
          · exact ih hres cid hc2
        · rw [if_neg h2] at hres
          have hgt : candScore start hi orphan c cand > (-1 : Int) := by
            have := candScore_nonneg start hi orphan c cand
            omega
          rw [if_pos hgt] at hres
          have := scanLoop_isSome nodes hi start oid orphan rest
            (some c, candScore start hi orphan c cand) (by simp)
          rw [hres] at this
          cases this

theorem scanLoop_all_skip (nodes : List (String × StoryNode)) (hi : List String)
    (start oid : String) (orphan : StoryNode) :
    ∀ (l : List String) (best : Option String × Int),
      (∀ cid ∈ l, cid = oid ∨ aget nodes cid = none
        ∨ ∃ cand, aget nodes cid = some cand ∧ 6 ≤ goCount cand) →
      scanLoop nodes hi start oid orphan best l = best := by
  intro l
  induction l with
  | nil => intro best _; rfl
  | cons c rest ih =>
    intro best hall
    unfold scanLoop
    rcases hall c (List.mem_cons_self _ _) with h | h | ⟨cand, hg, hbig⟩
    · rw [if_pos h]
      exact ih best (fun cid hc => hall cid (List.mem_cons_of_mem _ hc))
    · by_cases h1 : c = oid
      · rw [if_pos h1]
        exact ih best (fun cid hc => hall cid (List.mem_cons_of_mem _ hc))
      · rw [if_neg h1, h]
        exact ih best (fun cid hc => hall cid (List.mem_cons_of_mem _ hc))
    · by_cases h1 : c = oid
      · rw [if_pos h1]
        exact ih best (fun cid hc => hall cid (List.mem_cons_of_mem _ hc))
      · rw [if_neg h1, hg]
        dsimp only
        rw [if_pos hbig]
        exact ih best (fun cid hc => hall cid (List.mem_cons_of_mem _ hc))

theorem scanLoop_some_aget (nodes : List (String × StoryNode)) (hi : List String)
    (start oid : String) (orphan : StoryNode) :
    ∀ (l : List String) (best : Option String × Int),
      (∀ x, best.1 = some x → (aget nodes x).isSome) →
      ∀ y, (scanLoop nodes hi start oid orphan best l).1 = some y → (aget nodes y).isSome := by
  intro l
  induction l with
  | nil => intro best hb y hy; exact hb y hy
  | cons c rest ih =>
    intro best hb y hy
    unfold scanLoop at hy
    by_cases h1 : c = oid
    · rw [if_pos h1] at hy; exact ih best hb y hy
    · rw [if_neg h1] at hy
      cases hg : aget nodes c with
      | none => rw [hg] at hy; exact ih best hb y hy
      | some cand =>
        rw [hg] at hy
        dsimp only at hy
        by_cases h2 : goCount cand ≥ 6
        · rw [if_pos h2] at hy; exact ih best hb y hy
        · rw [if_neg h2] at hy
          by_cases h3 : candScore start hi orphan c cand > best.2
          · rw [if_pos h3] at hy
            refine ih _ ?_ y hy
            intro x hx
            simp at hx
            rw [← hx, hg]
            rfl
          · rw [if_neg h3] at hy; exact ih best hb y hy

theorem scanCandidates_some_aget (nodes : List (String × StoryNode)) (entriesIds hi : List String)
    (start oid : String) (orphan : StoryNode) (y : String)
    (h : scanCandidates nodes entriesIds hi start oid orphan = some y) :
    (aget nodes y).isSome := by
  unfold scanCandidates at h
  exact scanLoop_some_aget nodes hi start oid orphan entriesIds (none, -1) (by simp) y h

end GameModel

namespace GameModel

/-- Replacing one node by an interaction-extended version is a map
extension. -/
theorem mapExt_aset_append (l : List (String × StoryNode)) (k : String) (v : StoryNode)
    (extra : List Interaction) (hv : aget l k = some v) :
    MapExt l (aset l k { v with interactions := v.interactions ++ extra }) := by
  induction l with
  | nil => simp [aget] at hv
  | cons p t ih =>
    obtain ⟨k0, w⟩ := p
    by_cases hk : k0 = k
    · rw [aget_cons, if_pos hk] at hv
      cases hv
      unfold aset
      rw [if_pos hk]
      exact List.Forall₂.cons ⟨hk.symm, ⟨extra, rfl⟩⟩ (mapExt_refl t)
    · rw [aget_cons, if_neg hk] at hv
      unfold aset
      rw [if_neg hk]
      exact List.Forall₂.cons ⟨rfl, nodeExt_refl w⟩ (ih hv)

theorem reconnectStep_eq_noOrphan (locs : List (String × GameLocation)) (start : String)
    (entriesIds : List String) (st : ReconSt) (o : String)
    (h : aget st.nodes o = none) :
    reconnectStep locs start entriesIds st o = st := by
  unfold reconnectStep
  rw [h]

theorem reconnectStep_eq_noScan (locs : List (String × GameLocation)) (start : String)
    (entriesIds : List String) (st : ReconSt) (o : String) (orphan : StoryNode)
    (h : aget st.nodes o = some orphan)
    (hs : scanCandidates st.nodes entriesIds st.hasIncoming start o orphan = none) :
    reconnectStep locs start entriesIds st o = st := by
  unfold reconnectStep
  rw [h]
  dsimp only
  rw [hs]

theorem reconnectStep_eq_skip (locs : List (String × GameLocation)) (start : String)
    (entriesIds : List String) (st : ReconSt) (o : String) (orphan : StoryNode)
    (h : aget st.nodes o = some orphan)
    (hs : scanCandidates st.nodes entriesIds st.hasIncoming start o orphan = some "") :
    reconnectStep locs start entriesIds st o = st := by
  unfold reconnectStep
  rw [h]
  dsimp only
  rw [hs]
  dsimp only
  rw [if_pos rfl]

theorem reconnectStep_eq_fix (locs : List (String × GameLocation)) (start : String)
    (entriesIds : List String) (st : ReconSt) (o : String) (orphan pred : StoryNode)
    (best : String)
    (h : aget st.nodes o = some orphan)
    (hs : scanCandidates st.nodes entriesIds st.hasIncoming start o orphan = some best)
    (hbe : best ≠ "")
    (hp : aget st.nodes best = some pred) :
    reconnectStep locs start entriesIds st o =
      { nodes := aset st.nodes best
          { pred with interactions :=
              pred.interactions ++ [orphanFixInteraction locs o orphan] }
        hasIncoming := insertSet st.hasIncoming o
        warnings := st.warnings
        fixes := st.fixes ++ [Fix.orphanLink o best] } := by
  unfold reconnectStep
  rw [h]
  dsimp only
  rw [hs]
  dsimp only
  rw [if_neg hbe]
  rw [hp]

theorem reconnectStep_mapExt (locs : List (String × GameLocation)) (start : String)
    (entriesIds : List String) (st : ReconSt) (o : String) :
    MapExt st.nodes (reconnectStep locs start entriesIds st o).nodes := by
  cases h1 : aget st.nodes o with
  | none => rw [reconnectStep_eq_noOrphan locs start entriesIds st o h1]; exact mapExt_refl st.nodes
  | some orphan =>
    cases h2 : scanCandidates st.nodes entriesIds st.hasIncoming start o orphan with
    | none =>
      rw [reconnectStep_eq_noScan locs start entriesIds st o orphan h1 h2]
      exact mapExt_refl st.nodes
    | some best =>
      by_cases hbe : best = ""
      · subst hbe
        rw [reconnectStep_eq_skip locs start entriesIds st o orphan h1 h2]
        exact mapExt_refl st.nodes
      · have hpred := scanCandidates_some_aget st.nodes entriesIds st.hasIncoming
          start o orphan best h2
        cases h3 : aget st.nodes best with
        | none => rw [h3] at hpred; cases hpred
        | some pred =>
          rw [reconnectStep_eq_fix locs start entriesIds st o orphan pred best h1 h2 hbe h3]
          exact mapExt_aset_append st.nodes best pred [orphanFixInteraction locs o orphan] h3

theorem reconLoop_mapExt (locs : List (String × GameLocation)) (start : String)
    (entriesIds : List String) :
    ∀ (os : List String) (st : ReconSt),
      MapExt st.nodes (reconLoop locs start entriesIds st os).nodes := by
  intro os
  induction os with
  | nil => intro st; exact mapExt_refl st.nodes
  | cons o rest ih =>
    intro st
    unfold reconLoop
    exact mapExt_trans (reconnectStep_mapExt locs start entriesIds st o)
      (ih (reconnectStep locs start entriesIds st o))

/-- Fixes only grow along the reconnection loop. -/
theorem reconLoop_fixes_mono (locs : List (String × GameLocation)) (start : String)
    (entriesIds : List String) :
    ∀ (os : List String) (st : ReconSt),
      ∃ l, (reconLoop locs start entriesIds st os).fixes = st.fixes ++ l := by
  intro os
  induction os with
  | nil => intro st; exact ⟨[], by simp [reconLoop]⟩
  | cons o rest ih =>
    intro st
    unfold reconLoop
    obtain ⟨l, hl⟩ := ih (reconnectStep locs start entriesIds st o)
    rw [hl]
    cases h1 : aget st.nodes o with
    | none => rw [reconnectStep_eq_noOrphan locs start entriesIds st o h1]; exact ⟨l, rfl⟩
    | some orphan =>
      cases h2 : scanCandidates st.nodes entriesIds st.hasIncoming start o orphan with
      | none =>
        rw [reconnectStep_eq_noScan locs start entriesIds st o orphan h1 h2]
        exact ⟨l, rfl⟩
      | some best =>
        by_cases hbe : best = ""
        · subst hbe
          rw [reconnectStep_eq_skip locs start entriesIds st o orphan h1 h2]
          exact ⟨l, rfl⟩
        · have hpred := scanCandidates_some_aget st.nodes entriesIds st.hasIncoming
            start o orphan best h2
          cases h3 : aget st.nodes best with
          | none => rw [h3] at hpred; cases hpred
          | some pred =>
            rw [reconnectStep_eq_fix locs start entriesIds st o orphan pred best h1 h2 hbe h3]
            exact ⟨[Fix.orphanLink o best] ++ l, by simp⟩

/-- Every non-ending candidate (other than the orphan) the scan could
reach already has six or more outgoing `go` interactions. -/
def AllBig (nodes : List (String × StoryNode)) (entriesIds : List String) (oid : String) : Prop :=
  ∀ cid ∈ entriesIds, cid ≠ oid → ∀ cand, aget nodes cid = some cand → 6 ≤ goCount cand

theorem allBig_mono {n1 n2 : List (String × StoryNode)} (h : MapExt n1 n2)
    (entriesIds : List String) (oid : String) (hb : AllBig n1 entriesIds oid) :
    AllBig n2 entriesIds oid := by
  intro cid hc hne cand hg
  obtain ⟨v, hv, hext⟩ := h.aget_bwd cid hg
  exact le_trans (hb cid hc hne v hv) hext.goCount_le

theorem targetedBy_mono {n1 n2 : List (String × StoryNode)} (h : MapExt n1 n2)
    {v : String} (ht : TargetedBy n1 v) : TargetedBy n2 v := by
  obtain ⟨p, hp, i, hi, hit⟩ := ht
  obtain ⟨q, hq, _, hext⟩ := mapExt_mem h hp
  obtain ⟨extra, hq2⟩ := hext.interactions_append
  exact ⟨q, hq, i, by rw [hq2]; exact List.mem_append_left _ hi, hit⟩

/-- Trichotomy of the reconnection loop: each orphan in the work list
either ends up targeted by some interaction (the synthesized fix), or
every candidate had at least six `go` interactions when it was scanned —
and, `go` counts only growing, still has in the final state — or the
scan's winner was the node keyed the empty string, which the source's
JS-falsiness guard (`if (!bestPredecessor) continue`) skips; in that
last case a node keyed "" exists. -/
theorem recon_dichotomy (locs : List (String × GameLocation)) (start : String)
    (entriesIds : List String) :
    ∀ (os : List String) (st : ReconSt) (o : String), o ∈ os →
      (aget st.nodes o).isSome →
      TargetedBy (reconLoop locs start entriesIds st os).nodes o
      ∨ AllBig (reconLoop locs start entriesIds st os).nodes entriesIds o
      ∨ (aget (reconLoop locs start entriesIds st os).nodes "").isSome := by
  intro os
  induction os with
  | nil => intro st o ho; cases ho
  | cons c rest ih =>
    intro st o ho hsome
    rcases List.mem_cons.mp ho with rfl | ho2
    · -- o is processed now
      cases hg : aget st.nodes o with
      | none => rw [hg] at hsome; cases hsome
      | some orphan =>
        cases hscan : scanCandidates st.nodes entriesIds st.hasIncoming start o orphan with
        | none =>
          -- scan failed: every candidate is the orphan, missing, or big
          have hall := scanLoop_none_inv st.nodes st.hasIncoming start o orphan entriesIds hscan
          have hbig : AllBig st.nodes entriesIds o := by
            intro cid hc hne cand hgc
            rcases hall cid hc with h | h | ⟨cand2, hg2, hb2⟩
            · exact absurd h hne
            · rw [h] at hgc; cases hgc
            · rw [hg2] at hgc; cases hgc; exact hb2
          have hstep : reconnectStep locs start entriesIds st o = st :=
            reconnectStep_eq_noScan locs start entriesIds st o orphan hg hscan
          unfold reconLoop
          rw [hstep]
          exact Or.inr (Or.inl (allBig_mono (reconLoop_mapExt locs start entriesIds rest st)
            entriesIds o hbig))
        | some best =>
          have hpred := scanCandidates_some_aget st.nodes entriesIds st.hasIncoming
            start o orphan best hscan
          by_cases hbe : best = ""
          · -- JS-falsy winner: the fix is skipped, but a node keyed "" exists
            subst hbe
            have hstep : reconnectStep locs start entriesIds st o = st :=
              reconnectStep_eq_skip locs start entriesIds st o orphan hg hscan
            unfold reconLoop
            rw [hstep]
            refine Or.inr (Or.inr ?_)
            obtain ⟨v, hv⟩ := Option.isSome_iff_exists.mp hpred
            obtain ⟨v2, hv2, _⟩ :=
              (reconLoop_mapExt locs start entriesIds rest st).aget_fwd "" hv
            rw [hv2]
            rfl
          · cases hgp : aget st.nodes best with
            | none => rw [hgp] at hpred; cases hpred
            | some pred =>
              have hstep : reconnectStep locs start entriesIds st o =
                  { nodes := aset st.nodes best
                      { pred with interactions :=
                          pred.interactions ++ [orphanFixInteraction locs o orphan] }
                    hasIncoming := insertSet st.hasIncoming o
                    warnings := st.warnings
                    fixes := st.fixes ++ [Fix.orphanLink o best] } :=
                reconnectStep_eq_fix locs start entriesIds st o orphan pred best hg hscan hbe hgp
              have htgt : TargetedBy (reconnectStep locs start entriesIds st o).nodes o := by
                rw [hstep]
                refine ⟨(best, { pred with interactions :=
                    pred.interactions ++ [orphanFixInteraction locs o orphan] }), ?_, ?_⟩
                · exact mem_of_aget (aget_aset_self _ _ _)
                · exact ⟨orphanFixInteraction locs o orphan,
                    List.mem_append_right _ (List.mem_singleton.mpr rfl), rfl⟩
              unfold reconLoop
              exact Or.inl (targetedBy_mono
                (reconLoop_mapExt locs start entriesIds rest
                  (reconnectStep locs start entriesIds st o)) htgt)
    · -- o is processed later
      have hsome2 : (aget (reconnectStep locs start entriesIds st c).nodes o).isSome := by
        cases hg : aget st.nodes o with
        | none => rw [hg] at hsome; cases hsome
        | some v =>
          obtain ⟨v2, hv2, _⟩ := (reconnectStep_mapExt locs start entriesIds st c).aget_fwd o hg
          rw [hv2]
          rfl
      unfold reconLoop
      exact ih (reconnectStep locs start entriesIds st c) o ho2 hsome2

end GameModel

namespace GameModel

/-- Orphan list of `reconnectOrphanNodes` (named for the lemmas). -/
def orphansOf (start : String) (nodes : List (String × StoryNode)) : List String :=
  (nodes.map Prod.fst).filter (fun nid => nid ≠ start ∧ nid ∉ computeHasIncoming nodes)

/-- Candidate-entry id list of `reconnectOrphanNodes` (named for the
lemmas). -/
def entriesIdsOf (nodes : List (String × StoryNode)) : List String :=
  (nodes.filter (fun p => p.2.type ≠ NodeType.ending)).map Prod.fst

theorem recon_eq_empty (locs : List (String × GameLocation)) (start : String)
    (nodes : List (String × StoryNode)) (h : orphansOf start nodes = []) :
    reconnectOrphanNodes locs start nodes = (nodes, [], []) := by
  unfold reconnectOrphanNodes
  dsimp only
  unfold orphansOf at h
  rw [if_pos h]

theorem recon_eq_loop (locs : List (String × GameLocation)) (start : String)
    (nodes : List (String × StoryNode)) (h : ¬orphansOf start nodes = []) :
    reconnectOrphanNodes locs start nodes =
      (let st := reconLoop locs start (entriesIdsOf nodes)
        { nodes := nodes, hasIncoming := computeHasIncoming nodes
          warnings := [Warn.orphanCount (orphansOf start nodes).length], fixes := [] }
        (orphansOf start nodes)
       (st.nodes, st.warnings, st.fixes)) := by
  unfold reconnectOrphanNodes
  dsimp only
  unfold orphansOf at h
  rw [if_neg h]
  rfl

theorem mem_fst_of_aget {l : List (String × StoryNode)} {k : String} {v : StoryNode}
    (h : aget l k = some v) : k ∈ l.map Prod.fst :=
  List.mem_map.mpr ⟨(k, v), mem_of_aget h, rfl⟩

theorem aget_isSome_of_mem_fst {l : List (String × StoryNode)} {k : String}
    (h : k ∈ l.map Prod.fst) : (aget l k).isSome := by
  induction l with
  | nil => cases h
  | cons p t ih =>
    rw [List.map_cons] at h
    rcases List.mem_cons.mp h with rfl | h2
    · rw [aget_cons, if_pos rfl]; rfl
    · rw [aget_cons]
      by_cases hk : p.1 = k
      · rw [if_pos hk]; rfl
      · rw [if_neg hk]; exact ih h2

theorem mem_orphansOf {start : String} {nodes : List (String × StoryNode)} {v : String} :
    v ∈ orphansOf start nodes
    ↔ v ∈ nodes.map Prod.fst ∧ v ≠ start ∧ v ∉ computeHasIncoming nodes := by
  unfold orphansOf
  rw [List.mem_filter]
  simp

theorem hasIncomingEdge_iff (nodes : List (String × StoryNode)) (v : String) :
    hasIncomingEdge nodes v = true
    ↔ ∃ p ∈ nodes, (∃ i ∈ p.2.interactions, i.targetNodeId = some v)
        ∨ (∃ e ∈ p.2.onEnter, e.type = "go_to_node" ∧ e.key = v) := by
  unfold hasIncomingEdge
  simp [List.any_eq_true, Bool.or_eq_true, decide_eq_true_eq]

theorem hasIncomingEdge_of_targetedBy {nodes : List (String × StoryNode)} {v : String}
    (h : TargetedBy nodes v) : hasIncomingEdge nodes v = true := by
  obtain ⟨p, hp, i, hi, hit⟩ := h
  exact (hasIncomingEdge_iff nodes v).mpr ⟨p, hp, Or.inl ⟨i, hi, hit⟩⟩

theorem hasIncomingEdge_of_mem_computeHasIncoming {nodes : List (String × StoryNode)}
    {v : String} (h : v ∈ computeHasIncoming nodes) : hasIncomingEdge nodes v = true := by
  rw [mem_computeHasIncoming] at h
  obtain ⟨p, hp, hcase⟩ := h
  refine (hasIncomingEdge_iff nodes v).mpr ⟨p, hp, ?_⟩
  rcases hcase with ⟨i, hi, h1, _, _⟩ | ⟨e, he, h1, h2, _⟩
  · exact Or.inl ⟨i, hi, h1⟩
  · exact Or.inr ⟨e, he, h1, h2⟩

theorem hasIncomingEdge_mono {n1 n2 : List (String × StoryNode)} (h : MapExt n1 n2)
    {v : String} (he : hasIncomingEdge n1 v = true) : hasIncomingEdge n2 v = true := by
  rw [hasIncomingEdge_iff] at he ⊢
  obtain ⟨p, hp, hcase⟩ := he
  obtain ⟨q, hq, _, hext⟩ := mapExt_mem h hp
  obtain ⟨extra, hq2⟩ := hext.interactions_append
  refine ⟨q, hq, ?_⟩
  rcases hcase with ⟨i, hi, h1⟩ | ⟨e, heff, h1, h2⟩
  · exact Or.inl ⟨i, by rw [hq2]; exact List.mem_append_left _ hi, h1⟩
  · exact Or.inr ⟨e, by rw [hext.onEnter_eq]; exact heff, h1, h2⟩

/-- Reachability dichotomy of the full reconnection phase: any non-start
node of its output either has an incoming traversal edge or every other
non-ending node in the output already carries at least six `go`
interactions. -/
theorem recon_reachability (locs : List (String × GameLocation)) (start : String)
    (nodes : List (String × StoryNode)) (v : String) (n : StoryNode)
    (hv : aget (reconnectOrphanNodes locs start nodes).1 v = some n)
    (hstart : v ≠ start) (hempty : aget nodes "" = none) :
    hasIncomingEdge (reconnectOrphanNodes locs start nodes).1 v = true
    ∨ ∀ c nc, aget (reconnectOrphanNodes locs start nodes).1 c = some nc → c ≠ v →
        nc.type ≠ NodeType.ending → 6 ≤ goCount nc := by
  by_cases horph : orphansOf start nodes = []
  · rw [recon_eq_empty locs start nodes horph] at hv ⊢
    left
    have hfst : v ∈ nodes.map Prod.fst := mem_fst_of_aget hv
    by_cases hhi : v ∈ computeHasIncoming nodes
    · exact hasIncomingEdge_of_mem_computeHasIncoming hhi
    · exact absurd (mem_orphansOf.mpr ⟨hfst, hstart, hhi⟩) (by rw [horph]; simp)
  · rw [recon_eq_loop locs start nodes horph] at hv ⊢
    simp only at hv ⊢
    set st0 : ReconSt :=
      { nodes := nodes, hasIncoming := computeHasIncoming nodes
        warnings := [Warn.orphanCount (orphansOf start nodes).length], fixes := [] } with hst0
    have hext : MapExt nodes (reconLoop locs start (entriesIdsOf nodes) st0 (orphansOf start nodes)).nodes :=
      reconLoop_mapExt locs start (entriesIdsOf nodes) (orphansOf start nodes) st0
    by_cases hvo : v ∈ orphansOf start nodes
    · have hsome : (aget st0.nodes v).isSome :=
        aget_isSome_of_mem_fst (mem_orphansOf.mp hvo).1
      rcases recon_dichotomy locs start (entriesIdsOf nodes) (orphansOf start nodes) st0 v hvo hsome
        with ht | hb | hsk
      · exact Or.inl (hasIncomingEdge_of_targetedBy ht)
      · right
        intro c nc hc hcv hce
        obtain ⟨nc1, hnc1, hext1⟩ := hext.aget_bwd c hc
        have hty : nc1.type ≠ NodeType.ending := by
          rw [← hext1.type_eq]
          exact hce
        have hcid : c ∈ entriesIdsOf nodes := by
          unfold entriesIdsOf
          refine List.mem_map.mpr ⟨(c, nc1), ?_, rfl⟩
          rw [List.mem_filter]
          exact ⟨mem_of_aget hnc1, by simpa using hty⟩
        exact hb c hcid hcv nc hc
      · rw [hext.aget_none "" hempty] at hsk
        cases hsk
    · left
      have hfst : v ∈ nodes.map Prod.fst := by
        obtain ⟨n1, hn1, _⟩ := hext.aget_bwd v hv
        exact mem_fst_of_aget hn1
      have hhi : v ∈ computeHasIncoming nodes := by
        by_contra hhi
        exact hvo (mem_orphansOf.mpr ⟨hfst, hstart, hhi⟩)
      exact hasIncomingEdge_mono hext (hasIncomingEdge_of_mem_computeHasIncoming hhi)

end GameModel

namespace GameModel

theorem validateAndFix_nodes_eq (gd : GameData) :
    (validateAndFix gd).1.nodes =
      (reconnectOrphanNodes gd.locations gd.initialState.startNodeId
        (mainPass (mkCtx gd) {} gd.nodes).1).1 := rfl

end GameModel

namespace GameModel

/-- Accumulator update of one interaction-loop iteration (named for the
lemmas; definitionally the state built inside `processIxs`). -/
def procStepSt (ctx : Ctx) (nid : String) (st : LoopSt) (seen : List String)
    (i : Interaction) : LoopSt :=
  let total := st.totalInteractions + 1
  let d := dupStage nid seen total i
  let t := targetStage ctx nid d.1
  let i2 := t.1
  let cres := i2.conditions.foldl
    (fun acc c => (bump acc.1 c.type, acc.2 ++ condWarnings ctx nid i2.id c))
    (st.cCounts, ([] : List Warn))
  let eres := i2.effects.foldl
    (fun acc e => (bump acc.1 e.type, acc.2 ++ effWarnings ctx nid i2.id e))
    (st.eCounts, ([] : List Warn))
  { st with
    totalInteractions := total
    fixes := st.fixes ++ d.2 ++ t.2.1
    warnings := st.warnings ++ t.2.2 ++ cres.2 ++ eres.2
    iCounts := bump st.iCounts i2.type
    cCounts := cres.1
    eCounts := eres.1 }

theorem processIxs_cons (ctx : Ctx) (nid : String) (st : LoopSt) (seen : List String)
    (i : Interaction) (rest : List Interaction) :
    processIxs ctx nid st seen (i :: rest) =
      ((targetStage ctx nid (dupStage nid seen (st.totalInteractions + 1) i).1).1 ::
        (processIxs ctx nid (procStepSt ctx nid st seen i)
          (insertSet seen (dupStage nid seen (st.totalInteractions + 1) i).1.id) rest).1,
       (processIxs ctx nid (procStepSt ctx nid st seen i)
          (insertSet seen (dupStage nid seen (st.totalInteractions + 1) i).1.id) rest).2) := rfl

theorem procStepSt_fixes (ctx : Ctx) (nid : String) (st : LoopSt) (seen : List String)
    (i : Interaction) :
    (procStepSt ctx nid st seen i).fixes =
      st.fixes ++ (dupStage nid seen (st.totalInteractions + 1) i).2
        ++ (targetStage ctx nid (dupStage nid seen (st.totalInteractions + 1) i).1).2.1 := rfl

/-- The per-interaction tail of warnings contributed by condition and effect
validation (the parts of `procStepSt`'s warnings after the target-stage ones). -/
def procStepWarnTail (ctx : Ctx) (nid : String) (st : LoopSt) (seen : List String)
    (i : Interaction) : List Warn :=
  let total := st.totalInteractions + 1
  let d := dupStage nid seen total i
  let t := targetStage ctx nid d.1
  let i2 := t.1
  let cres := i2.conditions.foldl
    (fun acc c => (bump acc.1 c.type, acc.2 ++ condWarnings ctx nid i2.id c))
    (st.cCounts, ([] : List Warn))
  let eres := i2.effects.foldl
    (fun acc e => (bump acc.1 e.type, acc.2 ++ effWarnings ctx nid i2.id e))
    (st.eCounts, ([] : List Warn))
  cres.2 ++ eres.2

theorem procStepSt_warnings (ctx : Ctx) (nid : String) (st : LoopSt) (seen : List String)
    (i : Interaction) :
    ∃ w, (procStepSt ctx nid st seen i).warnings =
      st.warnings ++ (targetStage ctx nid (dupStage nid seen (st.totalInteractions + 1) i).1).2.2
        ++ w := by
  refine ⟨procStepWarnTail ctx nid st seen i, ?_⟩
  unfold procStepSt procStepWarnTail
  dsimp only
  rw [List.append_assoc]

theorem dupStage_target (nid : String) (seen : List String) (total : Nat) (i : Interaction) :
    (dupStage nid seen total i).1.targetNodeId = i.targetNodeId := by
  unfold dupStage
  split <;> rfl

theorem targetStage_dangling (ctx : Ctx) (nid : String) (i : Interaction) (t : String)
    (ht : i.targetNodeId = some t) (h1 : t ≠ "") (h2 : t ∉ ctx.nodeIds) :
    targetStage ctx nid i =
      match ctx.endingNodeIds with
      | fb :: _ => ({ i with targetNodeId := some fb }, [Fix.danglingTarget nid t fb], [])
      | [] => (i, [], [Warn.danglingTargetNoEnding nid t]) := by
  unfold targetStage
  rw [ht]
  dsimp only
  rw [if_pos ⟨h1, h2⟩]

theorem processIxs_length (ctx : Ctx) (nid : String) :
    ∀ (is : List Interaction) (st : LoopSt) (seen : List String),
      (processIxs ctx nid st seen is).1.length = is.length := by
  intro is
  induction is with
  | nil => intro st seen; rfl
  | cons i rest ih =>
    intro st seen
    rw [processIxs_cons]
    simp only [List.length_cons]
    rw [ih]

theorem processIxs_fixes_mono (ctx : Ctx) (nid : String) :
    ∀ (is : List Interaction) (st : LoopSt) (seen : List String),
      ∃ l, (processIxs ctx nid st seen is).2.fixes = st.fixes ++ l := by
  intro is
  induction is with
  | nil => intro st seen; exact ⟨[], by simp [processIxs]⟩
  | cons i rest ih =>
    intro st seen
    rw [processIxs_cons]
    obtain ⟨l, hl⟩ := ih (procStepSt ctx nid st seen i)
      (insertSet seen (dupStage nid seen (st.totalInteractions + 1) i).1.id)
    rw [hl, procStepSt_fixes]
    exact ⟨(dupStage nid seen (st.totalInteractions + 1) i).2
      ++ (targetStage ctx nid (dupStage nid seen (st.totalInteractions + 1) i).1).2.1 ++ l,
      by simp [List.append_assoc]⟩

theorem processIxs_warnings_mono (ctx : Ctx) (nid : String) :
    ∀ (is : List Interaction) (st : LoopSt) (seen : List String),
      ∃ l, (processIxs ctx nid st seen is).2.warnings = st.warnings ++ l := by
  intro is
  induction is with
  | nil => intro st seen; exact ⟨[], by simp [processIxs]⟩
  | cons i rest ih =>
    intro st seen
    rw [processIxs_cons]
    obtain ⟨l, hl⟩ := ih (procStepSt ctx nid st seen i)
      (insertSet seen (dupStage nid seen (st.totalInteractions + 1) i).1.id)
    rw [hl]
    obtain ⟨w, hw⟩ := procStepSt_warnings ctx nid st seen i
    rw [hw]
    exact ⟨(targetStage ctx nid (dupStage nid seen (st.totalInteractions + 1) i).1).2.2 ++ w ++ l,
      by simp [List.append_assoc]⟩

/-- Positional behavior of the interaction loop on a dangling target:
position j is rewritten to the first ending node and the fix recorded,
or kept with a warning when no ending exists. -/
theorem processIxs_dangling (ctx : Ctx) (nid : String) :
    ∀ (is : List Interaction) (st : LoopSt) (seen : List String) (j : Nat)
      (hj : j < is.length) (t : String),
      (is.get ⟨j, hj⟩).targetNodeId = some t → t ≠ "" → t ∉ ctx.nodeIds →
      ∀ (hj2 : j < (processIxs ctx nid st seen is).1.length),
        (match ctx.endingNodeIds with
         | fb :: _ => ((processIxs ctx nid st seen is).1.get ⟨j, hj2⟩).targetNodeId = some fb
             ∧ Fix.danglingTarget nid t fb ∈ (processIxs ctx nid st seen is).2.fixes
         | [] => ((processIxs ctx nid st seen is).1.get ⟨j, hj2⟩).targetNodeId = some t
             ∧ Warn.danglingTargetNoEnding nid t ∈ (processIxs ctx nid st seen is).2.warnings) := by
  intro is
  induction is with
  | nil => intro st seen j hj; cases hj
  | cons i rest ih =>
    intro st seen j hj t ht h1 h2 hj2
    cases j with
    | zero =>
      have hti : i.targetNodeId = some t := ht
      have htd : (dupStage nid seen (st.totalInteractions + 1) i).1.targetNodeId = some t := by
        rw [dupStage_target]; exact hti
      have hts := targetStage_dangling ctx nid
        (dupStage nid seen (st.totalInteractions + 1) i).1 t htd h1 h2
      obtain ⟨lf, hlf⟩ := processIxs_fixes_mono ctx nid rest
        (procStepSt ctx nid st seen i)
        (insertSet seen (dupStage nid seen (st.totalInteractions + 1) i).1.id)
      obtain ⟨lw, hlw⟩ := processIxs_warnings_mono ctx nid rest
        (procStepSt ctx nid st seen i)
        (insertSet seen (dupStage nid seen (st.totalInteractions + 1) i).1.id)
      cases hend : ctx.endingNodeIds with
      | cons fb fbs =>
        rw [hend] at hts
        constructor
        · have : (processIxs ctx nid st seen (i :: rest)).1.get ⟨0, hj2⟩
              = (targetStage ctx nid (dupStage nid seen (st.totalInteractions + 1) i).1).1 := rfl
          rw [this, hts]
        · rw [processIxs_cons]
          simp only
          rw [hlf, procStepSt_fixes, hts]
          simp
      | nil =>
        rw [hend] at hts
        constructor
        · have : (processIxs ctx nid st seen (i :: rest)).1.get ⟨0, hj2⟩
              = (targetStage ctx nid (dupStage nid seen (st.totalInteractions + 1) i).1).1 := rfl
          rw [this, hts]
          exact htd
        · rw [processIxs_cons]
          simp only
          rw [hlw]
          obtain ⟨w, hw⟩ := procStepSt_warnings ctx nid st seen i
          rw [hw, hts]
          simp
    | succ j0 =>
      have hj0 : j0 < rest.length := by
        rw [List.length_cons] at hj
        omega
      have ht0 : (rest.get ⟨j0, hj0⟩).targetNodeId = some t := ht
      have hj20 : j0 < (processIxs ctx nid (procStepSt ctx nid st seen i)
          (insertSet seen (dupStage nid seen (st.totalInteractions + 1) i).1.id) rest).1.length := by
        rw [processIxs_length]
        exact hj0
      have := ih (procStepSt ctx nid st seen i)
        (insertSet seen (dupStage nid seen (st.totalInteractions + 1) i).1.id)
        j0 hj0 t ht0 h1 h2 hj20
      cases hend : ctx.endingNodeIds with
      | cons fb fbs =>
        rw [hend] at this
        constructor
        · have hgets : (processIxs ctx nid st seen (i :: rest)).1.get ⟨j0 + 1, hj2⟩
              = (processIxs ctx nid (procStepSt ctx nid st seen i)
                  (insertSet seen (dupStage nid seen (st.totalInteractions + 1) i).1.id)
                  rest).1.get ⟨j0, hj20⟩ := rfl
          rw [hgets]
          exact this.1
        · rw [processIxs_cons]
          exact this.2
      | nil =>
        rw [hend] at this
        constructor
        · have hgets : (processIxs ctx nid st seen (i :: rest)).1.get ⟨j0 + 1, hj2⟩
              = (processIxs ctx nid (procStepSt ctx nid st seen i)
                  (insertSet seen (dupStage nid seen (st.totalInteractions + 1) i).1.id)
                  rest).1.get ⟨j0, hj20⟩ := rfl
          rw [hgets]
          exact this.1
        · rw [processIxs_cons]
          exact this.2

end GameModel

namespace GameModel

theorem mapExt_len {n1 n2 : List (String × StoryNode)} (h : MapExt n1 n2) :
    n1.length = n2.length := List.Forall₂.length_eq h

theorem mapExt_get {n1 n2 : List (String × StoryNode)} (h : MapExt n1 n2) :
    ∀ (a : Nat) (h1 : a < n1.length) (h2 : a < n2.length),
      (n2.get ⟨a, h2⟩).1 = (n1.get ⟨a, h1⟩).1 ∧ NodeExt (n1.get ⟨a, h1⟩).2 (n2.get ⟨a, h2⟩).2 := by
  induction h with
  | nil => intro a h1; exact absurd h1 (Nat.not_lt_zero a)
  | cons hpq ht ih =>
    intro a h1 h2
    cases a with
    | zero => exact hpq
    | succ a0 => exact ih a0 (Nat.lt_of_succ_lt_succ h1) (Nat.lt_of_succ_lt_succ h2)

theorem recon_mapExt (locs : List (String × GameLocation)) (start : String)
    (nodes : List (String × StoryNode)) :
    MapExt nodes (reconnectOrphanNodes locs start nodes).1 := by
  by_cases h : orphansOf start nodes = []
  · rw [recon_eq_empty locs start nodes h]
    exact mapExt_refl nodes
  · rw [recon_eq_loop locs start nodes h]
    exact reconLoop_mapExt locs start (entriesIdsOf nodes) (orphansOf start nodes)
      { nodes := nodes, hasIncoming := computeHasIncoming nodes
        warnings := [Warn.orphanCount (orphansOf start nodes).length], fixes := [] }

theorem processNode_node (ctx : Ctx) (st : LoopSt) (nid : String) (n : StoryNode) :
    (processNode ctx st nid n).1 =
      { n with interactions := (processIxs ctx nid (nodePreSt ctx st nid n) [] n.interactions).1 } :=
  rfl

theorem processNode_fixes (ctx : Ctx) (st : LoopSt) (nid : String) (n : StoryNode) :
    (processNode ctx st nid n).2.fixes =
      (processIxs ctx nid (nodePreSt ctx st nid n) [] n.interactions).2.fixes := rfl

theorem processNode_warnings (ctx : Ctx) (st : LoopSt) (nid : String) (n : StoryNode) :
    (processNode ctx st nid n).2.warnings =
      (processIxs ctx nid (nodePreSt ctx st nid n) [] n.interactions).2.warnings ++
        (if n.type ≠ NodeType.ending
            ∧ (processIxs ctx nid (nodePreSt ctx st nid n) [] n.interactions).1 = []
         then [Warn.noInteractions nid n.type] else []) := rfl

/-- The node-level reference warnings prepended by `nodePreSt` (named
for the lemmas). -/
def nodePreWarn (ctx : Ctx) (nodeId : String) (n : StoryNode) : List Warn :=
  (if n.locationId ≠ "" ∧ n.locationId ∉ ctx.locationIds
      then [Warn.locationNotFound nodeId n.locationId] else [])
    ++ n.presentCharacters.flatMap
        (fun c => if c ∉ ctx.characterIds then [Warn.characterNotFound nodeId c] else [])
    ++ n.availableObjects.flatMap
        (fun o => if o ∉ ctx.objectIds then [Warn.objectNotFound nodeId o] else [])

theorem nodePreSt_fixes (ctx : Ctx) (st : LoopSt) (nid : String) (n : StoryNode) :
    (nodePreSt ctx st nid n).fixes = st.fixes := by
  unfold nodePreSt
  dsimp only
  split <;> rfl

theorem nodePreSt_warnings (ctx : Ctx) (st : LoopSt) (nid : String) (n : StoryNode) :
    (nodePreSt ctx st nid n).warnings = st.warnings ++ nodePreWarn ctx nid n := by
  unfold nodePreSt nodePreWarn
  dsimp only
  split <;> rfl

theorem processNode_fixes_mono (ctx : Ctx) (st : LoopSt) (nid : String) (n : StoryNode) :
    ∃ l, (processNode ctx st nid n).2.fixes = st.fixes ++ l := by
  obtain ⟨l, hl⟩ := processIxs_fixes_mono ctx nid n.interactions (nodePreSt ctx st nid n) []
  rw [processNode_fixes, hl, nodePreSt_fixes]
  exact ⟨l, rfl⟩

theorem processNode_warnings_mono (ctx : Ctx) (st : LoopSt) (nid : String) (n : StoryNode) :
    ∃ l, (processNode ctx st nid n).2.warnings = st.warnings ++ l := by
  obtain ⟨l, hl⟩ := processIxs_warnings_mono ctx nid n.interactions (nodePreSt ctx st nid n) []
  rw [processNode_warnings, hl, nodePreSt_warnings]
  exact ⟨nodePreWarn ctx nid n ++ l ++
      (if n.type ≠ NodeType.ending
          ∧ (processIxs ctx nid (nodePreSt ctx st nid n) [] n.interactions).1 = []
       then [Warn.noInteractions nid n.type] else []),
    by simp [List.append_assoc]⟩

theorem mainPass_cons (ctx : Ctx) (st : LoopSt) (nid : String) (n : StoryNode)
    (rest : List (String × StoryNode)) :
    mainPass ctx st ((nid, n) :: rest) =
      ((nid, (processNode ctx st nid n).1) ::
         (mainPass ctx (processNode ctx st nid n).2 rest).1,
       (mainPass ctx (processNode ctx st nid n).2 rest).2) := rfl

theorem mainPass_length (ctx : Ctx) :
    ∀ (es : List (String × StoryNode)) (st : LoopSt),
      (mainPass ctx st es).1.length = es.length := by
  intro es
  induction es with
  | nil => intro st; rfl
  | cons p rest ih =>
    intro st
    obtain ⟨nid, n⟩ := p
    rw [mainPass_cons]
    simp only [List.length_cons]
    rw [ih]

theorem mainPass_fixes_mono (ctx : Ctx) :
    ∀ (es : List (String × StoryNode)) (st : LoopSt),
      ∃ l, (mainPass ctx st es).2.fixes = st.fixes ++ l := by
  intro es
  induction es with
  | nil => intro st; exact ⟨[], by simp [mainPass]⟩
  | cons p rest ih =>
    intro st
    obtain ⟨nid, n⟩ := p
    rw [mainPass_cons]
    obtain ⟨l1, hl1⟩ := processNode_fixes_mono ctx st nid n
    obtain ⟨l2, hl2⟩ := ih (processNode ctx st nid n).2
    rw [hl2, hl1]
    exact ⟨l1 ++ l2, by simp [List.append_assoc]⟩

theorem mainPass_warnings_mono (ctx : Ctx) :
    ∀ (es : List (String × StoryNode)) (st : LoopSt),
      ∃ l, (mainPass ctx st es).2.warnings = st.warnings ++ l := by
  intro es
  induction es with
  | nil => intro st; exact ⟨[], by simp [mainPass]⟩
  | cons p rest ih =>
    intro st
    obtain ⟨nid, n⟩ := p
    rw [mainPass_cons]
    obtain ⟨l1, hl1⟩ := processNode_warnings_mono ctx st nid n
    obtain ⟨l2, hl2⟩ := ih (processNode ctx st nid n).2
    rw [hl2, hl1]
    exact ⟨l1 ++ l2, by simp [List.append_assoc]⟩

end GameModel

namespace GameModel

/-- Positional behavior of the node loop on a dangling target: the node
keeps its key, and its interaction at position `j` is rewritten to the
first ending node with the fix recorded, or kept with a warning when no
ending exists. -/
theorem mainPass_dangling (ctx : Ctx) :
    ∀ (es : List (String × StoryNode)) (st : LoopSt) (a : Nat) (ha : a < es.length)
      (j : Nat) (hj : j < (es.get ⟨a, ha⟩).2.interactions.length) (t : String),
      ((es.get ⟨a, ha⟩).2.interactions.get ⟨j, hj⟩).targetNodeId = some t →
      t ≠ "" → t ∉ ctx.nodeIds →
      ∃ (ha2 : a < (mainPass ctx st es).1.length)
        (hj2 : j < ((mainPass ctx st es).1.get ⟨a, ha2⟩).2.interactions.length),
        ((mainPass ctx st es).1.get ⟨a, ha2⟩).1 = (es.get ⟨a, ha⟩).1 ∧
        (match ctx.endingNodeIds with
         | fb :: _ =>
             (((mainPass ctx st es).1.get ⟨a, ha2⟩).2.interactions.get ⟨j, hj2⟩).targetNodeId
               = some fb
             ∧ Fix.danglingTarget (es.get ⟨a, ha⟩).1 t fb ∈ (mainPass ctx st es).2.fixes
         | [] =>
             (((mainPass ctx st es).1.get ⟨a, ha2⟩).2.interactions.get ⟨j, hj2⟩).targetNodeId
               = some t
             ∧ Warn.danglingTargetNoEnding (es.get ⟨a, ha⟩).1 t
                 ∈ (mainPass ctx st es).2.warnings) := by
  intro es
  induction es with
  | nil => intro st a ha; exact absurd ha (Nat.not_lt_zero a)
  | cons p rest ih =>
    intro st a ha j hj t ht h1 h2
    obtain ⟨nid, n⟩ := p
    cases a with
    | zero =>
      have ha2 : 0 < (mainPass ctx st ((nid, n) :: rest)).1.length := by
        rw [mainPass_length]
        exact Nat.succ_pos _
      have hj' : j < (processIxs ctx nid (nodePreSt ctx st nid n) [] n.interactions).1.length := by
        rw [processIxs_length]
        exact hj
      refine ⟨ha2, hj', rfl, ?_⟩
      have hd := processIxs_dangling ctx nid n.interactions (nodePreSt ctx st nid n) []
        j hj t ht h1 h2 hj'
      obtain ⟨lf, hlf⟩ := mainPass_fixes_mono ctx rest (processNode ctx st nid n).2
      obtain ⟨lw, hlw⟩ := mainPass_warnings_mono ctx rest (processNode ctx st nid n).2
      cases hend : ctx.endingNodeIds with
      | cons fb fbs =>
        rw [hend] at hd
        refine ⟨hd.1, ?_⟩
        show Fix.danglingTarget nid t fb ∈ (mainPass ctx (processNode ctx st nid n).2 rest).2.fixes
        rw [hlf, processNode_fixes]
        exact List.mem_append_left _ hd.2
      | nil =>
        rw [hend] at hd
        refine ⟨hd.1, ?_⟩
        show Warn.danglingTargetNoEnding nid t
          ∈ (mainPass ctx (processNode ctx st nid n).2 rest).2.warnings
        rw [hlw, processNode_warnings]
        exact List.mem_append_left _ (List.mem_append_left _ hd.2)
    | succ a0 =>
      have ha0 : a0 < rest.length := Nat.lt_of_succ_lt_succ ha
      have hj0 : j < (rest.get ⟨a0, ha0⟩).2.interactions.length := hj
      have ht0 : ((rest.get ⟨a0, ha0⟩).2.interactions.get ⟨j, hj0⟩).targetNodeId = some t := ht
      obtain ⟨ha2r, hj2r, hkey, hrest⟩ :=
        ih (processNode ctx st nid n).2 a0 ha0 j hj0 t ht0 h1 h2
      have ha2 : a0 + 1 < (mainPass ctx st ((nid, n) :: rest)).1.length := by
        rw [mainPass_length]
        exact ha
      exact ⟨ha2, hj2r, hkey, hrest⟩

end GameModel

namespace GameModel

theorem get_eq_of_append {α : Type} {l l1 l2 : List α} (h : l = l1 ++ l2) (j : Nat)
    (hj1 : j < l1.length) (hjl : j < l.length) :
    l.get ⟨j, hjl⟩ = l1.get ⟨j, hj1⟩ := by
  subst h
  exact List.get_append j hj1

theorem validateAndFix_fixes_eq (gd : GameData) :
    (validateAndFix gd).2.fixes =
      (mainPass (mkCtx gd) {} gd.nodes).2.fixes ++
        (reconnectOrphanNodes gd.locations gd.initialState.startNodeId
          (mainPass (mkCtx gd) {} gd.nodes).1).2.2 := rfl

theorem validateAndFix_warnings_eq (gd : GameData) :
    (validateAndFix gd).2.warnings =
      (if (mkCtx gd).endingNodeIds = [] then [Warn.noEndingNodes] else []) ++
        (mainPass (mkCtx gd) {} gd.nodes).2.warnings ++
        (reconnectOrphanNodes gd.locations gd.initialState.startNodeId
          (mainPass (mkCtx gd) {} gd.nodes).1).2.1 ++
        (statsAndQuality (mkCtx gd) (mainPass (mkCtx gd) {} gd.nodes).2).2 := rfl

end GameModel

namespace GameModel

/-- C7: In `validateAndFix`, every interaction whose (non-empty)
`targetNodeId` references a non-existent node is rewritten to the first
ending node and recorded in the report's fixes list when at least one
ending node exists; when no ending node exists the interaction's target
is left unchanged and a warning (not a fix) is recorded. Stated
positionally: the node at position `a` keeps its key, and its
interaction at position `j` survives at the same position (orphan
reconnection only appends interactions) with the rewritten — or, with
no endings, unchanged — target. -/
theorem validateAndFix_dangling_target (gd : GameData) (a j : Nat) (t : String)
    (ha : a < gd.nodes.length)
    (hj : j < (gd.nodes.get ⟨a, ha⟩).2.interactions.length)
    (ht : ((gd.nodes.get ⟨a, ha⟩).2.interactions.get ⟨j, hj⟩).targetNodeId = some t)
    (h1 : t ≠ "") (h2 : t ∉ (mkCtx gd).nodeIds) :
    ∃ (ha2 : a < (validateAndFix gd).1.nodes.length)
      (hj2 : j < ((validateAndFix gd).1.nodes.get ⟨a, ha2⟩).2.interactions.length),
      ((validateAndFix gd).1.nodes.get ⟨a, ha2⟩).1 = (gd.nodes.get ⟨a, ha⟩).1 ∧
      (match (mkCtx gd).endingNodeIds with
       | fb :: _ =>
           (((validateAndFix gd).1.nodes.get ⟨a, ha2⟩).2.interactions.get
               ⟨j, hj2⟩).targetNodeId = some fb
           ∧ Fix.danglingTarget (gd.nodes.get ⟨a, ha⟩).1 t fb ∈ (validateAndFix gd).2.fixes
       | [] =>
           (((validateAndFix gd).1.nodes.get ⟨a, ha2⟩).2.interactions.get
               ⟨j, hj2⟩).targetNodeId = some t
           ∧ Warn.danglingTargetNoEnding (gd.nodes.get ⟨a, ha⟩).1 t
               ∈ (validateAndFix gd).2.warnings) := by
  obtain ⟨ham, hjm, hkeym, hmm⟩ :=
    mainPass_dangling (mkCtx gd) gd.nodes {} a ha j hj t ht h1 h2
  have hext : MapExt (mainPass (mkCtx gd) {} gd.nodes).1 (validateAndFix gd).1.nodes := by
    rw [validateAndFix_nodes_eq]
    exact recon_mapExt gd.locations gd.initialState.startNodeId
      (mainPass (mkCtx gd) {} gd.nodes).1
  have ha2 : a < (validateAndFix gd).1.nodes.length := by
    rw [← mapExt_len hext]
    exact ham
  have hget := mapExt_get hext a ham ha2
  obtain ⟨extra, hb⟩ := hget.2
  have hbi : ((validateAndFix gd).1.nodes.get ⟨a, ha2⟩).2.interactions
      = ((mainPass (mkCtx gd) {} gd.nodes).1.get ⟨a, ham⟩).2.interactions ++ extra := by
    rw [hb]
  have hj2 : j < ((validateAndFix gd).1.nodes.get ⟨a, ha2⟩).2.interactions.length := by
    rw [hbi, List.length_append]
    exact Nat.lt_of_lt_of_le hjm (Nat.le_add_right _ _)
  refine ⟨ha2, hj2, hget.1.trans hkeym, ?_⟩
  cases hend : (mkCtx gd).endingNodeIds with
  | cons fb fbs =>
    rw [hend] at hmm
    refine ⟨?_, ?_⟩
    · rw [get_eq_of_append hbi j hjm hj2]
      exact hmm.1
    · rw [validateAndFix_fixes_eq]
      exact List.mem_append_left _ hmm.2
  | nil =>
    rw [hend] at hmm
    refine ⟨?_, ?_⟩
    · rw [get_eq_of_append hbi j hjm hj2]
      exact hmm.1
    · rw [validateAndFix_warnings_eq]
      exact List.mem_append_left _
        (List.mem_append_left _ (List.mem_append_right _ hmm.2))

/-- Game data with one dangling interaction target ("ghost") and one
ending node, for the C7 witness. -/
def gdC7 : GameData :=
  { initialState := { startNodeId := "s", startLocationId := "loc" }
    nodes := [("s", { id := "s", type := NodeType.narrative, locationId := "loc"
                      interactions :=
                        [{ id := "i1", type := "go", targetNodeId := some "ghost" }] }),
              ("e", { id := "e", type := NodeType.ending, locationId := "loc" })]
    locations := [("loc", { id := "loc", name := "Cave" })] }

/-- Witness for C7 at `gdC7`: the interaction targeting the missing node
"ghost" is rewritten to the first ending node "e" and the fix is
recorded. -/
theorem validateAndFix_dangling_target_witness :
    ∃ (ha2 : 0 < (validateAndFix gdC7).1.nodes.length)
      (hj2 : 0 < ((validateAndFix gdC7).1.nodes.get ⟨0, ha2⟩).2.interactions.length),
      (((validateAndFix gdC7).1.nodes.get ⟨0, ha2⟩).2.interactions.get
          ⟨0, hj2⟩).targetNodeId = some "e"
      ∧ Fix.danglingTarget "s" "ghost" "e" ∈ (validateAndFix gdC7).2.fixes := by
  obtain ⟨ha2, hj2, hkey, hm⟩ :=
    validateAndFix_dangling_target gdC7 0 0 "ghost" (by decide) (by decide) (by decide)
      (by decide) (by decide)
  have hend : (mkCtx gdC7).endingNodeIds = ["e"] := by decide
  rw [hend] at hm
  exact ⟨ha2, hj2, hm.1, hm.2⟩

end GameModel

namespace GameModel

/-- Shape of a node map: keys and node types, in order (everything
`mkCtx`'s node and ending id lists depend on). -/
def SameShape (n1 n2 : List (String × StoryNode)) : Prop :=
  List.Forall₂ (fun p q => q.1 = p.1 ∧ q.2.type = p.2.type) n1 n2

theorem sameShape_of_mapExt {n1 n2 : List (String × StoryNode)} (h : MapExt n1 n2) :
    SameShape n1 n2 := by
  induction h with
  | nil => exact List.Forall₂.nil
  | cons hpq ht ih => exact List.Forall₂.cons ⟨hpq.1, hpq.2.type_eq⟩ ih

theorem sameShape_trans {n1 n2 n3 : List (String × StoryNode)}
    (h1 : SameShape n1 n2) (h2 : SameShape n2 n3) : SameShape n1 n3 := by
  induction h1 generalizing n3 with
  | nil => cases h2; exact List.Forall₂.nil
  | cons hpq h1t ih =>
    cases h2 with
    | cons hqr h2t =>
      exact List.Forall₂.cons ⟨hqr.1.trans hpq.1, hqr.2.trans hpq.2⟩ (ih h2t)

theorem sameShape_keys {n1 n2 : List (String × StoryNode)} (h : SameShape n1 n2) :
    n2.map Prod.fst = n1.map Prod.fst := by
  induction h with
  | nil => rfl
  | cons hpq ht ih => simp [ih, hpq.1]

theorem sameShape_endings {n1 n2 : List (String × StoryNode)} (h : SameShape n1 n2) :
    (n2.filter (fun p => p.2.type = NodeType.ending)).map Prod.fst
      = (n1.filter (fun p => p.2.type = NodeType.ending)).map Prod.fst := by
  induction h with
  | nil => rfl
  | cons hpq ht ih =>
    rename_i p q t1 t2
    by_cases he : p.2.type = NodeType.ending
    · rw [List.filter_cons, List.filter_cons,
        if_pos (by simp only [decide_eq_true_eq]; rw [hpq.2]; exact he),
        if_pos (by simp [he])]
      simp [ih, hpq.1]
    · rw [List.filter_cons, List.filter_cons,
        if_neg (by simp only [decide_eq_true_eq]; rw [hpq.2]; exact he),
        if_neg (by simp [he])]
      exact ih

theorem sameShape_entriesIds {n1 n2 : List (String × StoryNode)} (h : SameShape n1 n2) :
    entriesIdsOf n2 = entriesIdsOf n1 := by
  unfold entriesIdsOf
  induction h with
  | nil => rfl
  | cons hpq ht ih =>
    rename_i p q t1 t2
    by_cases he : p.2.type = NodeType.ending
    · rw [List.filter_cons, List.filter_cons,
        if_neg (by simp only [decide_eq_true_eq, ne_eq, not_not]; rw [hpq.2]; exact he),
        if_neg (by simp [he])]
      exact ih
    · rw [List.filter_cons, List.filter_cons,
        if_pos (by simp only [decide_eq_true_eq, ne_eq]; rw [hpq.2]; exact he),
        if_pos (by simp [he])]
      rw [List.map_cons, List.map_cons, hpq.1, ih]

theorem mainPass_sameShape (ctx : Ctx) :
    ∀ (es : List (String × StoryNode)) (st : LoopSt), SameShape es (mainPass ctx st es).1 := by
  intro es
  induction es with
  | nil => intro st; exact List.Forall₂.nil
  | cons p rest ih =>
    intro st
    obtain ⟨nid, n⟩ := p
    rw [mainPass_cons]
    exact List.Forall₂.cons ⟨rfl, rfl⟩ (ih (processNode ctx st nid n).2)

theorem validateAndFix_sameShape (gd : GameData) :
    SameShape gd.nodes (validateAndFix gd).1.nodes := by
  rw [validateAndFix_nodes_eq]
  exact sameShape_trans (mainPass_sameShape (mkCtx gd) gd.nodes {})
    (sameShape_of_mapExt (recon_mapExt gd.locations gd.initialState.startNodeId
      (mainPass (mkCtx gd) {} gd.nodes).1))

theorem mkCtx_nodeIds_eq (gd : GameData) :
    (mkCtx (validateAndFix gd).1).nodeIds = (mkCtx gd).nodeIds := by
  show ((validateAndFix gd).1.nodes.map Prod.fst).dedup = (gd.nodes.map Prod.fst).dedup
  rw [sameShape_keys (validateAndFix_sameShape gd)]

theorem mkCtx_endings_eq (gd : GameData) :
    (mkCtx (validateAndFix gd).1).endingNodeIds = (mkCtx gd).endingNodeIds := by
  show ((validateAndFix gd).1.nodes.filter (fun p => p.2.type = NodeType.ending)).map Prod.fst
    = (gd.nodes.filter (fun p => p.2.type = NodeType.ending)).map Prod.fst
  exact sameShape_endings (validateAndFix_sameShape gd)

end GameModel

namespace GameModel

/-- A target that will not draw a dangling-target fix on a later run:
if it is truthy and not a node id, there was no ending node to rewrite
it to. -/
def TargetOk (ctx : Ctx) (i : Interaction) : Prop :=
  ∀ t, i.targetNodeId = some t → t ≠ "" → t ∉ ctx.nodeIds → ctx.endingNodeIds = []

theorem mkCtx_endings_sub (gd : GameData) :
    ∀ x ∈ (mkCtx gd).endingNodeIds, x ∈ (mkCtx gd).nodeIds := by
  intro x hx
  show x ∈ (gd.nodes.map Prod.fst).dedup
  rw [List.mem_dedup]
  obtain ⟨p, hp, rfl⟩ := List.mem_map.mp hx
  exact List.mem_map.mpr ⟨p, (List.mem_filter.mp hp).1, rfl⟩

theorem targetStage_targetOk (ctx : Ctx) (nid : String) (i : Interaction)
    (hsub : ∀ x ∈ ctx.endingNodeIds, x ∈ ctx.nodeIds) :
    TargetOk ctx (targetStage ctx nid i).1 := by
  intro t ht h1 h2
  unfold targetStage at ht
  cases hi : i.targetNodeId with
  | none =>
    rw [hi] at ht
    dsimp only at ht
    rw [hi] at ht
    cases ht
  | some t0 =>
    rw [hi] at ht
    dsimp only at ht
    by_cases hd : t0 ≠ "" ∧ t0 ∉ ctx.nodeIds
    · rw [if_pos hd] at ht
      cases hend : ctx.endingNodeIds with
      | nil => rfl
      | cons fb fbs =>
        rw [hend] at ht
        dsimp only at ht
        have hfb : fb = t := by
          have : some fb = some t := ht
          exact Option.some.inj this
        have hmem : t ∈ ctx.nodeIds := by
          rw [← hfb]
          exact hsub fb (by rw [hend]; exact List.mem_cons_self _ _)
        exact absurd hmem h2
    · rw [if_neg hd] at ht
      dsimp only at ht
      rw [hi] at ht
      have ht0 : t0 = t := Option.some.inj ht
      rw [ht0] at hd
      exact absurd (fun hh => hd ⟨h1, hh⟩) (fun hh => hh h2)

theorem processIxs_targetOk (ctx : Ctx) (nid : String)
    (hsub : ∀ x ∈ ctx.endingNodeIds, x ∈ ctx.nodeIds) :
    ∀ (is : List Interaction) (st : LoopSt) (seen : List String),
      ∀ i2 ∈ (processIxs ctx nid st seen is).1, TargetOk ctx i2 := by
  intro is
  induction is with
  | nil => intro st seen i2 h; cases h
  | cons i rest ih =>
    intro st seen i2 h
    rw [processIxs_cons] at h
    rcases List.mem_cons.mp h with rfl | h2
    · exact targetStage_targetOk ctx nid _ hsub
    · exact ih (procStepSt ctx nid st seen i)
        (insertSet seen (dupStage nid seen (st.totalInteractions + 1) i).1.id) i2 h2

theorem mainPass_targetOk (ctx : Ctx)
    (hsub : ∀ x ∈ ctx.endingNodeIds, x ∈ ctx.nodeIds) :
    ∀ (es : List (String × StoryNode)) (st : LoopSt),
      ∀ p ∈ (mainPass ctx st es).1, ∀ i ∈ p.2.interactions, TargetOk ctx i := by
  intro es
  induction es with
  | nil => intro st p hp; cases hp
  | cons e rest ih =>
    intro st p hp i hi
    obtain ⟨nid, n⟩ := e
    rw [mainPass_cons] at hp
    rcases List.mem_cons.mp hp with rfl | hp2
    · exact processIxs_targetOk ctx nid hsub n.interactions (nodePreSt ctx st nid n) [] i hi
    · exact ih (processNode ctx st nid n).2 p hp2 i hi

theorem mem_aset_cases {β : Type} {l : List (String × β)} {k : String} {v : β}
    {q : String × β} (hq : q ∈ aset l k v) : q ∈ l ∨ q = (k, v) := by
  induction l with
  | nil =>
    rcases List.mem_singleton.mp hq with rfl
    exact Or.inr rfl
  | cons p t ih =>
    obtain ⟨pk, pv⟩ := p
    unfold aset at hq
    by_cases hk : pk = k
    · rw [if_pos hk] at hq
      rcases List.mem_cons.mp hq with rfl | hq2
      · exact Or.inr rfl
      · exact Or.inl (List.mem_cons_of_mem _ hq2)
    · rw [if_neg hk] at hq
      rcases List.mem_cons.mp hq with rfl | hq2
      · exact Or.inl (List.mem_cons_self _ _)
      · rcases ih hq2 with h | h
        · exact Or.inl (List.mem_cons_of_mem _ h)
        · exact Or.inr h

theorem reconnectStep_targetOk (locs : List (String × GameLocation)) (start : String)
    (entriesIds : List String) (ctx : Ctx) (st : ReconSt) (o : String)
    (hK : ∀ k ∈ st.nodes.map Prod.fst, k ∈ ctx.nodeIds)
    (hin : ∀ p ∈ st.nodes, ∀ i ∈ p.2.interactions, TargetOk ctx i) :
    ∀ p ∈ (reconnectStep locs start entriesIds st o).nodes,
      ∀ i ∈ p.2.interactions, TargetOk ctx i := by
  cases h1 : aget st.nodes o with
  | none =>
    rw [reconnectStep_eq_noOrphan locs start entriesIds st o h1]
    exact hin
  | some orphan =>
    cases h2 : scanCandidates st.nodes entriesIds st.hasIncoming start o orphan with
    | none =>
      rw [reconnectStep_eq_noScan locs start entriesIds st o orphan h1 h2]
      exact hin
    | some best =>
      by_cases hbe : best = ""
      · subst hbe
        rw [reconnectStep_eq_skip locs start entriesIds st o orphan h1 h2]
        exact hin
      · have hpred := scanCandidates_some_aget st.nodes entriesIds st.hasIncoming
          start o orphan best h2
        cases h3 : aget st.nodes best with
        | none => rw [h3] at hpred; cases hpred
        | some pred =>
          rw [reconnectStep_eq_fix locs start entriesIds st o orphan pred best h1 h2 hbe h3]
          intro p hp i hi
          dsimp only at hp
          rcases mem_aset_cases hp with hp2 | rfl
          · exact hin p hp2 i hi
          · dsimp only at hi
            rcases List.mem_append.mp hi with hi2 | hi3
            · exact hin (best, pred) (mem_of_aget h3) i hi2
            · rcases List.mem_singleton.mp hi3 with rfl
              intro t htt _ hnot
              have hto : t = o := by
                have h5 : (orphanFixInteraction locs o orphan).targetNodeId = some o := rfl
                rw [h5] at htt
                exact (Option.some.inj htt).symm
              have : t ∈ ctx.nodeIds := by
                rw [hto]
                exact hK o (mem_fst_of_aget h1)
              exact absurd this hnot

theorem reconLoop_targetOk (locs : List (String × GameLocation)) (start : String)
    (entriesIds : List String) (ctx : Ctx) :
    ∀ (os : List String) (st : ReconSt),
      (∀ k ∈ st.nodes.map Prod.fst, k ∈ ctx.nodeIds) →
      (∀ p ∈ st.nodes, ∀ i ∈ p.2.interactions, TargetOk ctx i) →
      ∀ p ∈ (reconLoop locs start entriesIds st os).nodes,
        ∀ i ∈ p.2.interactions, TargetOk ctx i := by
  intro os
  induction os with
  | nil => intro st _ hin; exact hin
  | cons o rest ih =>
    intro st hK hin
    unfold reconLoop
    refine ih (reconnectStep locs start entriesIds st o) ?_
      (reconnectStep_targetOk locs start entriesIds ctx st o hK hin)
    intro k hk
    rw [(reconnectStep_mapExt locs start entriesIds st o).keys_eq] at hk
    exact hK k hk

theorem recon_targetOk (locs : List (String × GameLocation)) (start : String)
    (ctx : Ctx) (nodes : List (String × StoryNode))
    (hK : ∀ k ∈ nodes.map Prod.fst, k ∈ ctx.nodeIds)
    (hin : ∀ p ∈ nodes, ∀ i ∈ p.2.interactions, TargetOk ctx i) :
    ∀ p ∈ (reconnectOrphanNodes locs start nodes).1,
      ∀ i ∈ p.2.interactions, TargetOk ctx i := by
  by_cases h : orphansOf start nodes = []
  · rw [recon_eq_empty locs start nodes h]
    exact hin
  · rw [recon_eq_loop locs start nodes h]
    exact reconLoop_targetOk locs start (entriesIdsOf nodes) ctx (orphansOf start nodes)
      { nodes := nodes, hasIncoming := computeHasIncoming nodes
        warnings := [Warn.orphanCount (orphansOf start nodes).length], fixes := [] }
      hK hin

theorem targetOk_congr {ctx1 ctx2 : Ctx} (hN : ctx2.nodeIds = ctx1.nodeIds)
    (hE : ctx2.endingNodeIds = ctx1.endingNodeIds) {i : Interaction}
    (h : TargetOk ctx1 i) : TargetOk ctx2 i := by
  intro t ht h1 h2
  rw [hE]
  rw [hN] at h2
  exact h t ht h1 h2

end GameModel

namespace GameModel

theorem dupStage_id (nid : String) (seen : List String) (total : Nat) (i : Interaction)
    (h : i.id ∉ seen) : dupStage nid seen total i = (i, []) := by
  unfold dupStage
  rw [if_neg h]

theorem targetStage_id (ctx : Ctx) (nid : String) (i : Interaction) (hok : TargetOk ctx i) :
    (targetStage ctx nid i).1 = i ∧ (targetStage ctx nid i).2.1 = [] := by
  unfold targetStage
  cases hi : i.targetNodeId with
  | none => exact ⟨rfl, rfl⟩
  | some t =>
    dsimp only
    by_cases hd : t ≠ "" ∧ t ∉ ctx.nodeIds
    · have hend := hok t hi hd.1 hd.2
      rw [if_pos hd, hend]
      exact ⟨rfl, rfl⟩
    · rw [if_neg hd]
      exact ⟨rfl, rfl⟩

theorem processIxs_id (ctx : Ctx) (nid : String) :
    ∀ (is : List Interaction) (st : LoopSt) (seen : List String),
      (∀ i ∈ is, TargetOk ctx i) → (is.map (fun i => i.id)).Nodup →
      (∀ i ∈ is, i.id ∉ seen) →
      (processIxs ctx nid st seen is).1 = is
      ∧ (processIxs ctx nid st seen is).2.fixes = st.fixes := by
  intro is
  induction is with
  | nil => intro st seen _ _ _; exact ⟨rfl, rfl⟩
  | cons i rest ih =>
    intro st seen hok hnd hseen
    have hd := dupStage_id nid seen (st.totalInteractions + 1) i
      (hseen i (List.mem_cons_self _ _))
    have ht := targetStage_id ctx nid i (hok i (List.mem_cons_self _ _))
    have hnd2 : (rest.map (fun i => i.id)).Nodup := (List.nodup_cons.mp hnd).2
    have hhead : i.id ∉ rest.map (fun i => i.id) := (List.nodup_cons.mp hnd).1
    have hseen2 : ∀ i2 ∈ rest, i2.id ∉ insertSet seen i.id := by
      intro i2 hi2 hmem
      rcases (mem_insertSet seen i.id i2.id).mp hmem with h | h
      · exact hseen i2 (List.mem_cons_of_mem _ hi2) h
      · exact hhead (h ▸ List.mem_map.mpr ⟨i2, hi2, rfl⟩)
    have hok2 : ∀ i2 ∈ rest, TargetOk ctx i2 :=
      fun i2 hi2 => hok i2 (List.mem_cons_of_mem _ hi2)
    have hseen3 : ∀ i2 ∈ rest,
        i2.id ∉ insertSet seen (dupStage nid seen (st.totalInteractions + 1) i).1.id := by
      rw [hd]
      exact hseen2
    obtain ⟨hr1, hr2⟩ := ih (procStepSt ctx nid st seen i)
      (insertSet seen (dupStage nid seen (st.totalInteractions + 1) i).1.id) hok2 hnd2 hseen3
    rw [processIxs_cons]
    constructor
    · rw [hr1, hd]
      dsimp only
      rw [ht.1]
    · rw [hr2, procStepSt_fixes, hd]
      dsimp only
      rw [ht.2]
      simp

theorem processNode_id (ctx : Ctx) (st : LoopSt) (nid : String) (n : StoryNode)
    (hok : ∀ i ∈ n.interactions, TargetOk ctx i)
    (hnd : (n.interactions.map (fun i => i.id)).Nodup) :
    (processNode ctx st nid n).1 = n ∧ (processNode ctx st nid n).2.fixes = st.fixes := by
  obtain ⟨hr1, hr2⟩ := processIxs_id ctx nid n.interactions (nodePreSt ctx st nid n) []
    hok hnd (fun i _ => List.not_mem_nil i.id)
  constructor
  · rw [processNode_node, hr1]
  · rw [processNode_fixes, hr2, nodePreSt_fixes]

theorem mainPass_id (ctx : Ctx) :
    ∀ (es : List (String × StoryNode)) (st : LoopSt),
      (∀ p ∈ es, ∀ i ∈ p.2.interactions, TargetOk ctx i) →
      (∀ p ∈ es, (p.2.interactions.map (fun i => i.id)).Nodup) →
      (mainPass ctx st es).1 = es ∧ (mainPass ctx st es).2.fixes = st.fixes := by
  intro es
  induction es with
  | nil => intro st _ _; exact ⟨rfl, rfl⟩
  | cons p rest ih =>
    intro st hok hnd
    obtain ⟨nid, n⟩ := p
    have hpn := processNode_id ctx st nid n
      (hok (nid, n) (List.mem_cons_self _ _))
      (hnd (nid, n) (List.mem_cons_self _ _))
    obtain ⟨hr1, hr2⟩ := ih (processNode ctx st nid n).2
      (fun q hq => hok q (List.mem_cons_of_mem _ hq))
      (fun q hq => hnd q (List.mem_cons_of_mem _ hq))
    rw [mainPass_cons]
    constructor
    · rw [hr1, hpn.1]
    · rw [hr2, hpn.2]

end GameModel

namespace GameModel

theorem computeHasIncoming_mono {n1 n2 : List (String × StoryNode)} (h : MapExt n1 n2)
    {x : String} (hx : x ∈ computeHasIncoming n1) : x ∈ computeHasIncoming n2 := by
  rw [mem_computeHasIncoming] at hx ⊢
  obtain ⟨p, hp, hcase⟩ := hx
  obtain ⟨q, hq, hq1, hqext⟩ := mapExt_mem h hp
  obtain ⟨extra, hq2⟩ := hqext.interactions_append
  have hsome : (aget n1 x).isSome → (aget n2 x).isSome := by
    intro hs
    obtain ⟨v, hv⟩ := Option.isSome_iff_exists.mp hs
    obtain ⟨v2, hv2, _⟩ := h.aget_fwd x hv
    rw [hv2]
    rfl
  refine ⟨q, hq, ?_⟩
  rcases hcase with ⟨i, hi, hit, hne, hsm⟩ | ⟨e, he, het, hek, hsm⟩
  · exact Or.inl ⟨i, by rw [hq2]; exact List.mem_append_left _ hi, hit, hne, hsome hsm⟩
  · exact Or.inr ⟨e, by rw [hqext.onEnter_eq]; exact he, het, hek, hsome hsm⟩

theorem chi_of_targetedBy {nodes : List (String × StoryNode)} {x : String}
    (ht : TargetedBy nodes x) (hne : x ≠ "") (hs : (aget nodes x).isSome) :
    x ∈ computeHasIncoming nodes := by
  obtain ⟨p, hp, i, hi, hit⟩ := ht
  exact (mem_computeHasIncoming nodes x).mpr ⟨p, hp, Or.inl ⟨i, hi, hit, hne, hs⟩⟩

theorem scanCandidates_none_of_allBig (nodes : List (String × StoryNode))
    (entriesIds hi : List String) (start o : String) (orphan : StoryNode)
    (hb : AllBig nodes entriesIds o) :
    scanCandidates nodes entriesIds hi start o orphan = none := by
  have hcond : ∀ cid ∈ entriesIds, cid = o ∨ aget nodes cid = none
      ∨ ∃ cand, aget nodes cid = some cand ∧ 6 ≤ goCount cand := by
    intro cid hc
    by_cases h1 : cid = o
    · exact Or.inl h1
    · cases hg : aget nodes cid with
      | none => exact Or.inr (Or.inl rfl)
      | some cand => exact Or.inr (Or.inr ⟨cand, rfl, hb cid hc h1 cand hg⟩)
  unfold scanCandidates
  rw [scanLoop_all_skip nodes hi start o orphan entriesIds (none, -1) hcond]

theorem reconLoop_all_fail (locs : List (String × GameLocation)) (start : String)
    (entriesIds : List String) :
    ∀ (os : List String) (st : ReconSt),
      (∀ o ∈ os, ∀ orphan, aget st.nodes o = some orphan →
        scanCandidates st.nodes entriesIds st.hasIncoming start o orphan = none) →
      reconLoop locs start entriesIds st os = st := by
  intro os
  induction os with
  | nil => intro st _; rfl
  | cons o rest ih =>
    intro st hall
    unfold reconLoop
    have hstep : reconnectStep locs start entriesIds st o = st := by
      cases h1 : aget st.nodes o with
      | none => exact reconnectStep_eq_noOrphan locs start entriesIds st o h1
      | some orphan =>
        exact reconnectStep_eq_noScan locs start entriesIds st o orphan h1
          (hall o (List.mem_cons_self _ _) orphan h1)
    rw [hstep]
    exact ih st (fun o2 ho2 => hall o2 (List.mem_cons_of_mem _ ho2))

theorem recon_fixes_nil (locs : List (String × GameLocation)) (start : String)
    (nodes : List (String × StoryNode))
    (hall : ∀ o ∈ orphansOf start nodes, ∀ orphan, aget nodes o = some orphan →
      scanCandidates nodes (entriesIdsOf nodes) (computeHasIncoming nodes) start o orphan
        = none) :
    (reconnectOrphanNodes locs start nodes).2.2 = [] := by
  by_cases h : orphansOf start nodes = []
  · rw [recon_eq_empty locs start nodes h]
  · rw [recon_eq_loop locs start nodes h]
    dsimp only
    rw [reconLoop_all_fail locs start (entriesIdsOf nodes) (orphansOf start nodes)
      { nodes := nodes, hasIncoming := computeHasIncoming nodes
        warnings := [Warn.orphanCount (orphansOf start nodes).length], fixes := [] }
      hall]

end GameModel

namespace GameModel

/-- C4 (amended): `validateAndFix` is convergent — a second run on the
first run's output yields a report with an empty fixes list — provided
the empty string is not a node key (a node keyed "" can stay a
reconnection orphan forever, since the synthesized link to it is falsy
and never counts as incoming) and the first run's output has per-node
unique interaction ids (an input id crafted to collide with a
duplicate-rename or a synthesized `fix_orphan_go_<id>` id makes the
second run emit a duplicate-id fix, see the counterexample). -/
theorem validateAndFix_convergent (gd : GameData)
    (hkeys : "" ∉ gd.nodes.map Prod.fst)
    (huniq : ∀ p ∈ (validateAndFix gd).1.nodes,
      (p.2.interactions.map (fun i => i.id)).Nodup) :
    (validateAndFix (validateAndFix gd).1).2.fixes = [] := by
  have hshape := validateAndFix_sameShape gd
  have hkeys1 : (validateAndFix gd).1.nodes.map Prod.fst = gd.nodes.map Prod.fst :=
    sameShape_keys hshape
  have hN := mkCtx_nodeIds_eq gd
  have hE := mkCtx_endings_eq gd
  have hmp_keys : (mainPass (mkCtx gd) {} gd.nodes).1.map Prod.fst = gd.nodes.map Prod.fst :=
    sameShape_keys (mainPass_sameShape (mkCtx gd) gd.nodes {})
  have htok1 : ∀ p ∈ (validateAndFix gd).1.nodes, ∀ i ∈ p.2.interactions,
      TargetOk (mkCtx gd) i := by
    rw [validateAndFix_nodes_eq]
    apply recon_targetOk
    · intro k hk
      rw [hmp_keys] at hk
      show k ∈ (gd.nodes.map Prod.fst).dedup
      exact List.mem_dedup.mpr hk
    · exact mainPass_targetOk (mkCtx gd) (mkCtx_endings_sub gd) gd.nodes {}
  have htok2 : ∀ p ∈ (validateAndFix gd).1.nodes, ∀ i ∈ p.2.interactions,
      TargetOk (mkCtx (validateAndFix gd).1) i :=
    fun p hp i hi => targetOk_congr hN hE (htok1 p hp i hi)
  obtain ⟨hm1, hm2⟩ := mainPass_id (mkCtx (validateAndFix gd).1)
    (validateAndFix gd).1.nodes {} htok2 huniq
  have hextm : MapExt (mainPass (mkCtx gd) {} gd.nodes).1 (validateAndFix gd).1.nodes := by
    rw [validateAndFix_nodes_eq]
    exact recon_mapExt gd.locations gd.initialState.startNodeId
      (mainPass (mkCtx gd) {} gd.nodes).1
  have hrec : (reconnectOrphanNodes (validateAndFix gd).1.locations
      (validateAndFix gd).1.initialState.startNodeId (validateAndFix gd).1.nodes).2.2 = [] := by
    apply recon_fixes_nil
    intro o ho orphan hgo
    obtain ⟨hof, hos, hoc⟩ := mem_orphansOf.mp ho
    have hone : o ≠ "" := by
      intro heq
      rw [hkeys1] at hof
      rw [heq] at hof
      exact hkeys hof
    have hoc1 : o ∉ computeHasIncoming (mainPass (mkCtx gd) {} gd.nodes).1 := by
      intro hmem
      exact hoc (computeHasIncoming_mono hextm hmem)
    have hof1 : o ∈ (mainPass (mkCtx gd) {} gd.nodes).1.map Prod.fst := by
      rw [hmp_keys, ← hkeys1]
      exact hof
    have hos1 : o ≠ gd.initialState.startNodeId := hos
    have ho1 : o ∈ orphansOf gd.initialState.startNodeId
        (mainPass (mkCtx gd) {} gd.nodes).1 :=
      mem_orphansOf.mpr ⟨hof1, hos1, hoc1⟩
    have hne1 : ¬ orphansOf gd.initialState.startNodeId
        (mainPass (mkCtx gd) {} gd.nodes).1 = [] := by
      intro hnil
      rw [hnil] at ho1
      exact List.not_mem_nil o ho1
    have hnodes1 : (validateAndFix gd).1.nodes =
        (reconLoop gd.locations gd.initialState.startNodeId
          (entriesIdsOf (mainPass (mkCtx gd) {} gd.nodes).1)
          { nodes := (mainPass (mkCtx gd) {} gd.nodes).1
            hasIncoming := computeHasIncoming (mainPass (mkCtx gd) {} gd.nodes).1
            warnings := [Warn.orphanCount (orphansOf gd.initialState.startNodeId
              (mainPass (mkCtx gd) {} gd.nodes).1).length]
            fixes := [] }
          (orphansOf gd.initialState.startNodeId
            (mainPass (mkCtx gd) {} gd.nodes).1)).nodes := by
      rw [validateAndFix_nodes_eq,
        recon_eq_loop gd.locations gd.initialState.startNodeId
          (mainPass (mkCtx gd) {} gd.nodes).1 hne1]
    have hsome1 : (aget (mainPass (mkCtx gd) {} gd.nodes).1 o).isSome :=
      aget_isSome_of_mem_fst hof1
    have hdich := recon_dichotomy gd.locations gd.initialState.startNodeId
      (entriesIdsOf (mainPass (mkCtx gd) {} gd.nodes).1)
      (orphansOf gd.initialState.startNodeId (mainPass (mkCtx gd) {} gd.nodes).1)
      { nodes := (mainPass (mkCtx gd) {} gd.nodes).1
        hasIncoming := computeHasIncoming (mainPass (mkCtx gd) {} gd.nodes).1
        warnings := [Warn.orphanCount (orphansOf gd.initialState.startNodeId
          (mainPass (mkCtx gd) {} gd.nodes).1).length]
        fixes := [] }
      o ho1 hsome1
    rw [← hnodes1] at hdich
    rcases hdich with htb | hbig | hsk
    · have : o ∈ computeHasIncoming (validateAndFix gd).1.nodes :=
        chi_of_targetedBy htb hone (aget_isSome_of_mem_fst hof)
      exact absurd this hoc
    · have hent : entriesIdsOf (validateAndFix gd).1.nodes
          = entriesIdsOf (mainPass (mkCtx gd) {} gd.nodes).1 :=
        sameShape_entriesIds (sameShape_of_mapExt hextm)
      rw [← hent] at hbig
      exact scanCandidates_none_of_allBig _ _ _ _ _ orphan hbig
    · obtain ⟨v, hv⟩ := Option.isSome_iff_exists.mp hsk
      have : ("" : String) ∈ gd.nodes.map Prod.fst := by
        rw [← hkeys1]
        exact mem_fst_of_aget hv
      exact absurd this hkeys
  rw [validateAndFix_fixes_eq, hm2, hm1, hrec]
  rfl

end GameModel

namespace GameModel

/-- Game data whose node "s" already carries an interaction with the id
`fix_orphan_go_b` that the first run's orphan reconnection will also
synthesize (for the orphan "b"), so the second run sees a duplicate id:
the C4 counterexample. -/
def gdC4 : GameData :=
  { initialState := { startNodeId := "s", startLocationId := "loc" }
    nodes := [("s", { id := "s", type := NodeType.narrative, locationId := "loc"
                      interactions :=
                        [{ id := "fix_orphan_go_b", type := "go",
                           targetNodeId := some "s" }] }),
              ("b", { id := "b", type := NodeType.narrative, locationId := "loc" }),
              ("e", { id := "e", type := NodeType.ending, locationId := "loc" })]
    locations := [("loc", { id := "loc", name := "Cave" })] }

/-- C4, counterexample to the unconditional claim: on `gdC4` the second
run of `validateAndFix` still reports a fix (the duplicate-id rename of
the colliding `fix_orphan_go_b`), so the fixes list of run two is not
empty. -/
theorem validateAndFix_not_convergent :
    (validateAndFix (validateAndFix gdC4).1).2.fixes ≠ [] := by decide

/-- Game data with a dangling target fixed in run one and nothing left
for run two, for the C4 witness. -/
def gdC4w : GameData :=
  { initialState := { startNodeId := "s", startLocationId := "loc" }
    nodes := [("s", { id := "s", type := NodeType.narrative, locationId := "loc"
                      interactions :=
                        [{ id := "i1", type := "go", targetNodeId := some "nowhere" }] }),
              ("e", { id := "e", type := NodeType.ending, locationId := "loc" })]
    locations := [("loc", { id := "loc", name := "Cave" })] }

/-- Witness for the C4 amended theorem at `gdC4w`: both hypotheses hold
and the second run reports no fixes. -/
theorem validateAndFix_convergent_witness :
    (validateAndFix (validateAndFix gdC4w).1).2.fixes = [] :=
  validateAndFix_convergent gdC4w (by decide) (by decide)

end GameModel

namespace GameModel

/-- Game data whose only candidate predecessor for the unreachable node
b is an ending node: reconnection has no candidate, for the C2
counterexample and witness. -/
def gdC2 : GameData :=
  { initialState := { startNodeId := "s", startLocationId := "loc" }
    nodes := [("s", { id := "s", type := NodeType.ending, locationId := "loc" }),
              ("b", { id := "b", type := NodeType.narrative, locationId := "loc" })]
    locations := [("loc", { id := "loc", name := "Cave" })] }

/-- C2, counterexample: in `gdC2` the node b is neither the start node
nor an ending node, yet after `validateAndFix` no node at all (let alone
another node) has an interaction or onEnter effect pointing to it: the
only possible predecessor is an ending node, which the reconnection scan
skips, so the orphan stays unreachable. -/
theorem validateAndFix_reachability_cex :
    hasIncomingEdge (validateAndFix gdC2).1.nodes "b" = false
    ∧ (aget (validateAndFix gdC2).1.nodes "b").map (fun n => n.type) = some NodeType.narrative
    ∧ gdC2.initialState.startNodeId = "s" := by
  refine ⟨?_, ?_, ?_⟩ <;> decide

/-- C2 (amended): provided the empty string is not a node key (the
source's `if (!bestPredecessor) continue` skips a scan winner whose id
is the JS-falsy empty string, so a node keyed "" can win the scan yet
never be linked from), after `validateAndFix` every node other than the
start node and ending nodes either has at least one incoming traversal
edge — some node's interaction (possibly its own: the source counts
self-references as incoming) targets it, or an onEnter `go_to_node`
names it — or every other non-ending node of the final data already has
at least six outgoing `go` interactions (in particular when no other
non-ending node exists), so the reconnection scan had no eligible
candidate to link from. -/
theorem validateAndFix_reachability (gd : GameData) (v : String) (n : StoryNode)
    (hkeys : "" ∉ gd.nodes.map Prod.fst)
    (hv : aget (validateAndFix gd).1.nodes v = some n)
    (hstart : v ≠ gd.initialState.startNodeId)
    (hend : n.type ≠ NodeType.ending) :
    hasIncomingEdge (validateAndFix gd).1.nodes v = true
    ∨ ∀ c nc, aget (validateAndFix gd).1.nodes c = some nc → c ≠ v →
        nc.type ≠ NodeType.ending → 6 ≤ goCount nc := by
  have hmk : (mainPass (mkCtx gd) {} gd.nodes).1.map Prod.fst = gd.nodes.map Prod.fst :=
    sameShape_keys (mainPass_sameShape (mkCtx gd) gd.nodes {})
  have hempty : aget (mainPass (mkCtx gd) {} gd.nodes).1 "" = none := by
    cases hg : aget (mainPass (mkCtx gd) {} gd.nodes).1 "" with
    | none => rfl
    | some w =>
      have : ("" : String) ∈ gd.nodes.map Prod.fst := by
        rw [← hmk]
        exact mem_fst_of_aget hg
      exact absurd this hkeys
  rw [validateAndFix_nodes_eq] at hv ⊢
  exact recon_reachability gd.locations gd.initialState.startNodeId
    (mainPass (mkCtx gd) {} gd.nodes).1 v n hv hstart hempty

/-- Witness for the C2 amended theorem at `gdC2`: the hypotheses hold
and the right disjunct holds vacuously (the only other node is an
ending node). -/
theorem validateAndFix_reachability_witness :
    hasIncomingEdge (validateAndFix gdC2).1.nodes "b" = true
    ∨ ∀ c nc, aget (validateAndFix gdC2).1.nodes c = some nc → c ≠ "b" →
        nc.type ≠ NodeType.ending → 6 ≤ goCount nc :=
  validateAndFix_reachability gdC2 "b"
    { id := "b", type := NodeType.narrative, locationId := "loc" }
    (by decide) (by decide) (by decide) (by decide)

end GameModel
